import Mathlib

/-!
Verification development for the spectre repository (github.com/hb9tf/spectre).

This file shallowly embeds the algorithmic core of the repository in Lean 4:

* the frequency-bucket aggregator of `collection/hackrf/hackrf.go`
  (`Sweep`, lines 94-113) over the `sdr.Sample` record of `sdr/sdr.go`;
* the sweep-line parser of `collection/rtlsdr/rtlsdr.go` /
  `collection/hackrf/hackrf.go` (`scanRow`, `parseUint`, `calculateBinRange`);
* the waterfall extractor of `extraction.Render` (with its sqlite queries
  modelled as list computations over an in-memory row store) and the
  color mapper `GetColor`.

Modelling conventions:

* Go `uint64`/`uint` values are `Nat` with an explicit `% 2 ^ 64`
  wherever the Go code can overflow (the aggregator's sample-count
  addition, the parser's bin-range arithmetic).  `uint` is assumed to be
  64 bits wide (the platforms the tool targets).
* Go `float64`/`float32` values are modelled as exact rationals `ℚ`;
  the special values produced by IEEE division are modelled by the
  symbolic type `F32` below where the code can actually produce them.
* `time.Time` values produced by the collectors are modelled by the
  `Timestamp` record (the parser only ever builds them from an RFC3339
  string); the epoch-millisecond columns of the sqlite store are `Int`.
* Channels disappear: a function that streams samples to a channel
  returns the list of samples it sent, in order.
-/

/- Batteries marks the `Rat` field operations `@[irreducible]`; concrete
evaluation in proofs below needs them unfolded. -/
attribute [local semireducible] Rat.add Rat.mul Rat.inv Rat.sub Rat.ofScientific

/-! ## Data model: `sdr.Sample` (sdr/sdr.go) -/

/-- A wall-clock timestamp as parsed from an RFC3339 string
(`time.Parse(time.RFC3339, ...)` in `scanRow`).  Only the fields the
collectors can produce are kept (the parsed strings carry no offset and
no fractional second). -/
structure Timestamp where
  year : Nat
  month : Nat
  day : Nat
  hour : Nat
  minute : Nat
  second : Nat
deriving DecidableEq

/-- Chronological key of a timestamp: strictly monotone in each field for
calendar-valid timestamps (month < 13, day < 32, hour < 24, minute,
second < 60), so comparing keys compares instants. -/
def Timestamp.key (t : Timestamp) : Nat :=
  ((((t.year * 13 + t.month) * 32 + t.day) * 24 + t.hour) * 60 + t.minute) * 60 + t.second

/-- `sdr.Sample` (sdr/sdr.go).  Numeric radio data is `Nat` (Go `uint`,
64-bit); dB readings are `ℚ` (Go `float64`). -/
structure Sample where
  Identifier : String
  Source : String
  FreqCenter : Nat
  FreqLow : Nat
  FreqHigh : Nat
  DBHigh : ℚ
  DBLow : ℚ
  DBAvg : ℚ
  SampleCount : Nat
  Start : Timestamp
  End : Timestamp
deriving DecidableEq

/-- Go's `uint`/`uint64` modulus. -/
def U64 : Nat := 2 ^ 64

/-! ## Frequency-bucket aggregator (collection/hackrf/hackrf.go, Sweep lines 94-113)

```go
stored, ok := s.buckets[sample.FreqCenter]
if !ok {
    s.buckets[sample.FreqCenter] = sample
    continue
}
stored.End = sample.End
stored.DBAvg = (stored.DBAvg*float64(stored.SampleCount) + sample.DBAvg*float64(sample.SampleCount)) / float64(stored.SampleCount+sample.SampleCount)
if sample.DBLow < stored.DBLow {
    stored.DBLow = sample.DBLow
}
if sample.DBHigh > stored.DBHigh {
    stored.DBHigh = sample.DBHigh
}
stored.SampleCount += sample.SampleCount
s.buckets[sample.FreqCenter] = stored
```
-/

/-- Merge one incoming sample into an already-present bucket (the
`ok == true` branch above).  `SampleCount` addition is Go `uint`
arithmetic, hence the `% U64`; the average divides by the same (possibly
wrapped) sum, converted to float. -/
def mergeSample (stored sample : Sample) : Sample :=
  { stored with
    End := sample.End
    DBAvg := (stored.DBAvg * (stored.SampleCount : ℚ) + sample.DBAvg * (sample.SampleCount : ℚ)) /
      (((stored.SampleCount + sample.SampleCount) % U64 : Nat) : ℚ)
    DBLow := if sample.DBLow < stored.DBLow then sample.DBLow else stored.DBLow
    DBHigh := if sample.DBHigh > stored.DBHigh then sample.DBHigh else stored.DBHigh
    SampleCount := (stored.SampleCount + sample.SampleCount) % U64 }

/-- The in-memory bucket table `map[uint64]sdr.Sample`, as an association
list keyed by center frequency. -/
abbrev BucketTable := List (Nat × Sample)

def lookupBucket : BucketTable → Nat → Option Sample
  | [], _ => none
  | (k, v) :: t, c => if k = c then some v else lookupBucket t c

/-- Go map assignment `m[c] = s`. -/
def insertBucket : BucketTable → Nat → Sample → BucketTable
  | [], c, s => [(c, s)]
  | (k, v) :: t, c, s => if k = c then (c, s) :: t else (k, v) :: insertBucket t c s

/-- One iteration of the aggregation loop for one received sample. -/
def sweepStep (t : BucketTable) (sample : Sample) : BucketTable :=
  match lookupBucket t sample.FreqCenter with
  | none => insertBucket t sample.FreqCenter sample
  | some stored => insertBucket t sample.FreqCenter (mergeSample stored sample)

/-- Run the aggregation loop over a whole list of raw samples, starting
from the empty table of a fresh flush window. -/
def sweepRun (l : List Sample) : BucketTable := l.foldl sweepStep []

/-- The fate of a single bucket: `none` is the absent bucket, ingesting
into it follows exactly the lookup branch of the loop. -/
def ingestBucket : Option Sample → Sample → Option Sample
  | none, s => some s
  | some stored, s => some (mergeSample stored s)

/-! Closed forms used to state the aggregate claims. -/

/-- Total sample count of a batch (mathematical sum, no wrap). -/
def sumCount (l : List Sample) : Nat := (l.map Sample.SampleCount).sum

/-- Sample-count-weighted sum of the batch's average dB readings. -/
def wsum (l : List Sample) : ℚ := (l.map (fun s => s.DBAvg * (s.SampleCount : ℚ))).sum

/-! ## Basic lemmas about the table -/

lemma lookup_insert_self (t : BucketTable) (c : Nat) (s : Sample) :
    lookupBucket (insertBucket t c s) c = some s := by
  induction t with
  | nil => simp [insertBucket, lookupBucket]
  | cons kv t ih =>
    obtain ⟨k, v⟩ := kv
    by_cases h : k = c
    · simp [insertBucket, h, lookupBucket]
    · simp [insertBucket, h, lookupBucket, ih]

lemma lookup_sweepStep (t : BucketTable) (s : Sample) :
    lookupBucket (sweepStep t s) s.FreqCenter = ingestBucket (lookupBucket t s.FreqCenter) s := by
  unfold sweepStep
  cases h : lookupBucket t s.FreqCenter with
  | none => simp [ingestBucket, lookup_insert_self]
  | some stored => simp [ingestBucket, lookup_insert_self]

lemma lookup_sweepRun_aux (l : List Sample) (c : Nat) :
    (∀ s ∈ l, s.FreqCenter = c) →
    ∀ t : BucketTable, lookupBucket (l.foldl sweepStep t) c = l.foldl ingestBucket (lookupBucket t c) := by
  induction l with
  | nil => intro _ t; simp
  | cons s l ih =>
    intro hc t
    have hs : s.FreqCenter = c := hc s (by simp)
    have hl : ∀ x ∈ l, x.FreqCenter = c := fun x hx => hc x (by simp [hx])
    simp only [List.foldl_cons]
    rw [ih hl, ← hs, lookup_sweepStep]

lemma foldl_ingest_some (l : List Sample) :
    ∀ a : Sample, l.foldl ingestBucket (some a) = some (l.foldl mergeSample a) := by
  induction l with
  | nil => intro a; simp
  | cons s l ih => intro a; simp only [List.foldl_cons]; rw [show ingestBucket (some a) s = some (mergeSample a s) from rfl, ih]

lemma lookup_sweepRun (s₀ : Sample) (l : List Sample) (c : Nat)
    (hc : ∀ s ∈ s₀ :: l, s.FreqCenter = c) :
    lookupBucket (sweepRun (s₀ :: l)) c = some (l.foldl mergeSample s₀) := by
  unfold sweepRun
  rw [lookup_sweepRun_aux _ _ hc]
  simp only [List.foldl_cons]
  rw [show ingestBucket (lookupBucket [] c) s₀ = some s₀ from rfl, foldl_ingest_some]

/-! ## Min/max fold helper lemmas -/

lemma foldl_min_mem (xs : List ℚ) : ∀ a : ℚ, xs.foldl min a ∈ a :: xs := by
  induction xs with
  | nil => intro a; simp
  | cons x xs ih =>
    intro a
    simp only [List.foldl_cons]
    rcases List.mem_cons.mp (ih (min a x)) with hm | hm
    · rcases min_choice a x with h | h <;> rw [hm, h] <;> simp
    · exact List.mem_cons_of_mem _ (List.mem_cons_of_mem _ hm)

lemma foldl_min_le (xs : List ℚ) : ∀ a : ℚ, ∀ x ∈ a :: xs, xs.foldl min a ≤ x := by
  induction xs with
  | nil => intro a x hx; simp at hx; simp [hx]
  | cons y xs ih =>
    intro a x hx
    simp only [List.foldl_cons]
    rcases List.mem_cons.mp hx with h | h
    · exact le_trans (ih (min a y) (min a y) (by simp)) (by simp [h, min_le_left])
    · rcases List.mem_cons.mp h with h | h
      · exact le_trans (ih (min a y) (min a y) (by simp)) (by simp [h, min_le_right])
      · exact ih (min a y) x (by simp [h])

lemma foldl_max_mem (xs : List ℚ) : ∀ a : ℚ, xs.foldl max a ∈ a :: xs := by
  induction xs with
  | nil => intro a; simp
  | cons x xs ih =>
    intro a
    simp only [List.foldl_cons]
    rcases List.mem_cons.mp (ih (max a x)) with hm | hm
    · rcases max_choice a x with h | h <;> rw [hm, h] <;> simp
    · exact List.mem_cons_of_mem _ (List.mem_cons_of_mem _ hm)

lemma foldl_max_ge (xs : List ℚ) : ∀ a : ℚ, ∀ x ∈ a :: xs, x ≤ xs.foldl max a := by
  induction xs with
  | nil => intro a x hx; simp at hx; simp [hx]
  | cons y xs ih =>
    intro a x hx
    simp only [List.foldl_cons]
    rcases List.mem_cons.mp hx with h | h
    · exact le_trans (by simp [h, le_max_left]) (ih (max a y) (max a y) (by simp))
    · rcases List.mem_cons.mp h with h | h
      · exact le_trans (by simp [h, le_max_right]) (ih (max a y) (max a y) (by simp))
      · exact ih (max a y) x (by simp [h])

lemma if_lt_eq_min (stored sample : ℚ) :
    (if sample < stored then sample else stored) = min stored sample := by
  rcases lt_or_le sample stored with h | h
  · simp [h, min_eq_right (le_of_lt h)]
  · simp [not_lt.mpr h, min_eq_left h]

lemma if_gt_eq_max (stored sample : ℚ) :
    (if sample > stored then sample else stored) = max stored sample := by
  rcases lt_or_le stored sample with h | h
  · simp [h, max_eq_right (le_of_lt h)]
  · simp [not_lt.mpr h, max_eq_left h]

/-! ## The aggregation invariant -/

/-- Everything the merge loop does to a bucket, in closed form: folding
a batch `l` of samples into an existing bucket `acc` sums the counts,
accumulates the count-weighted dB sum, takes pointwise min/max of the
dB extremes, keeps `Start` and the identity fields, and sets `End` to
the *last* sample's `End` (plain assignment in the Go code). -/
lemma foldl_merge_inv (l : List Sample) : ∀ acc : Sample,
    1 ≤ acc.SampleCount → (∀ s ∈ l, 1 ≤ s.SampleCount) →
    acc.SampleCount + sumCount l < U64 →
    (l.foldl mergeSample acc).SampleCount = acc.SampleCount + sumCount l
    ∧ (l.foldl mergeSample acc).DBAvg * ((acc.SampleCount + sumCount l : Nat) : ℚ)
        = acc.DBAvg * (acc.SampleCount : ℚ) + wsum l
    ∧ (l.foldl mergeSample acc).DBLow = (l.map Sample.DBLow).foldl min acc.DBLow
    ∧ (l.foldl mergeSample acc).DBHigh = (l.map Sample.DBHigh).foldl max acc.DBHigh
    ∧ (l.foldl mergeSample acc).Start = acc.Start
    ∧ (l.foldl mergeSample acc).End = (l.map Sample.End).getLastD acc.End
    ∧ (l.foldl mergeSample acc).FreqCenter = acc.FreqCenter := by
  induction l with
  | nil =>
    intro acc _ _ _
    simp [sumCount, wsum]
  | cons s l ih =>
    intro acc hacc hl hbound
    have hs : 1 ≤ s.SampleCount := hl s (by simp)
    have hsum : sumCount (s :: l) = s.SampleCount + sumCount l := by
      simp [sumCount]
    have hsmall : acc.SampleCount + s.SampleCount < U64 := by
      rw [hsum] at hbound; omega
    have hmod : (acc.SampleCount + s.SampleCount) % U64 = acc.SampleCount + s.SampleCount :=
      Nat.mod_eq_of_lt hsmall
    set acc' := mergeSample acc s with hacc'
    have hSC : acc'.SampleCount = acc.SampleCount + s.SampleCount := by
      simp [hacc', mergeSample, hmod]
    have hacc'pos : 1 ≤ acc'.SampleCount := by omega
    have hbound' : acc'.SampleCount + sumCount l < U64 := by
      rw [hSC]; rw [hsum] at hbound; omega
    have hl' : ∀ x ∈ l, 1 ≤ x.SampleCount := fun x hx => hl x (by simp [hx])
    obtain ⟨iSC, iAvg, iLow, iHigh, iStart, iEnd, iCenter⟩ := ih acc' hacc'pos hl' hbound'
    have hne : ((acc.SampleCount : ℚ) + (s.SampleCount : ℚ)) ≠ 0 := by
      have : (0 : ℚ) < (acc.SampleCount : ℚ) + (s.SampleCount : ℚ) := by
        have h1 : (0 : ℚ) < (acc.SampleCount : ℚ) := by exact_mod_cast hacc
        have h2 : (0 : ℚ) ≤ (s.SampleCount : ℚ) := by positivity
        linarith
      exact ne_of_gt this
    have hAvg' : acc'.DBAvg * ((acc'.SampleCount : Nat) : ℚ)
        = acc.DBAvg * (acc.SampleCount : ℚ) + s.DBAvg * (s.SampleCount : ℚ) := by
      simp only [hacc', mergeSample, hmod, hSC]
      rw [div_mul_eq_mul_div]
      rw [mul_div_assoc]
      rw [Nat.cast_add]
      rw [div_self hne, mul_one]
    refine ⟨?_, ?_, ?_, ?_, ?_, ?_, ?_⟩
    · simp only [List.foldl_cons, ← hacc', iSC, hSC, hsum]; omega
    · simp only [List.foldl_cons, ← hacc']
      have hcast : ((acc.SampleCount + sumCount (s :: l) : Nat) : ℚ)
          = ((acc'.SampleCount + sumCount l : Nat) : ℚ) := by
        rw [hSC, hsum]; push_cast; ring
      rw [hcast, iAvg, hAvg']
      have : wsum (s :: l) = s.DBAvg * (s.SampleCount : ℚ) + wsum l := by
        simp [wsum]
      rw [this]; ring
    · simp only [List.foldl_cons, ← hacc', iLow, List.map_cons]
      have : acc'.DBLow = min acc.DBLow s.DBLow := by
        simp [hacc', mergeSample, if_lt_eq_min]
      rw [this]
    · simp only [List.foldl_cons, ← hacc', iHigh, List.map_cons]
      have : acc'.DBHigh = max acc.DBHigh s.DBHigh := by
        simp [hacc', mergeSample, if_gt_eq_max]
      rw [this]
    · simp only [List.foldl_cons, ← hacc', iStart]
      simp [hacc', mergeSample]
    · simp only [List.foldl_cons, ← hacc', iEnd, List.map_cons]
      have : acc'.End = s.End := by simp [hacc', mergeSample]
      rw [List.getLastD_cons, this]
    · simp only [List.foldl_cons, ← hacc', iCenter]
      simp [hacc', mergeSample]

/-! ## Concrete samples used by witnesses and counterexamples -/

def tsA : Timestamp := ⟨2021, 12, 1, 10, 0, 1⟩

def tsB : Timestamp := ⟨2021, 12, 1, 10, 0, 2⟩

def smplA : Sample :=
  ⟨"id0", "hackrf", 100, 90, 110, -10, -20, -15, 10, tsA, tsA⟩

def smplB : Sample :=
  ⟨"id0", "hackrf", 100, 90, 110, -6, -30, -18, 30, tsB, tsB⟩

/-! ## C1 -/

/-- C1: for every non-empty batch of samples sharing one center
frequency folded into a single bucket within one flush window, the
resulting aggregate's `DBAvg` is the `SampleCount`-weighted mean of the
inputs' `DBAvg`, `DBLow`/`DBHigh` are the global min/max of the inputs'
`DBLow`/`DBHigh`, and `SampleCount` is the sum of the inputs'
`SampleCount`s.  (Counts are at least 1 and the total does not overflow
`uint64`, per the spec's data-model invariants; dB arithmetic is the
exact-rational idealization of `float64`.) -/
theorem c1_single_bucket_aggregate (l : List Sample) (c : Nat)
    (hne : l ≠ []) (hc : ∀ s ∈ l, s.FreqCenter = c)
    (hcnt : ∀ s ∈ l, 1 ≤ s.SampleCount) (hbound : sumCount l < U64) :
    ∃ agg : Sample, lookupBucket (sweepRun l) c = some agg
      ∧ agg.SampleCount = sumCount l
      ∧ agg.DBAvg = wsum l / ((sumCount l : Nat) : ℚ)
      ∧ agg.DBLow ∈ l.map Sample.DBLow ∧ (∀ s ∈ l, agg.DBLow ≤ s.DBLow)
      ∧ agg.DBHigh ∈ l.map Sample.DBHigh ∧ (∀ s ∈ l, s.DBHigh ≤ agg.DBHigh) := by
  obtain ⟨s₀, t, rfl⟩ : ∃ s₀ t, l = s₀ :: t := by
    cases l with
    | nil => exact absurd rfl hne
    | cons a b => exact ⟨a, b, rfl⟩
  refine ⟨t.foldl mergeSample s₀, lookup_sweepRun s₀ t c hc, ?_, ?_, ?_, ?_, ?_, ?_⟩
  all_goals {
    have hs₀ : 1 ≤ s₀.SampleCount := hcnt s₀ (by simp)
    have ht : ∀ s ∈ t, 1 ≤ s.SampleCount := fun s hs => hcnt s (by simp [hs])
    have hsum : sumCount (s₀ :: t) = s₀.SampleCount + sumCount t := by simp [sumCount]
    have hb : s₀.SampleCount + sumCount t < U64 := by rw [← hsum]; exact hbound
    obtain ⟨iSC, iAvg, iLow, iHigh, _, _, _⟩ := foldl_merge_inv t s₀ hs₀ ht hb
    first
    | (rw [iSC, hsum])
    | (rw [hsum] at hbound ⊢
       have hpos : (0 : ℚ) < ((s₀.SampleCount + sumCount t : Nat) : ℚ) := by
         have : 1 ≤ s₀.SampleCount + sumCount t := by omega
         exact_mod_cast Nat.lt_of_lt_of_le Nat.zero_lt_one this
       have hw : wsum (s₀ :: t) = s₀.DBAvg * (s₀.SampleCount : ℚ) + wsum t := by simp [wsum]
       rw [hw, eq_div_iff (ne_of_gt hpos), iAvg])
    | (rw [iLow, List.map_cons]; exact foldl_min_mem _ _)
    | (intro s hs
       rw [iLow]
       refine foldl_min_le (t.map Sample.DBLow) s₀.DBLow s.DBLow ?_
       rw [← List.map_cons]
       exact List.mem_map_of_mem Sample.DBLow hs)
    | (rw [iHigh, List.map_cons]; exact foldl_max_mem _ _)
    | (intro s hs
       rw [iHigh]
       refine foldl_max_ge (t.map Sample.DBHigh) s₀.DBHigh s.DBHigh ?_
       rw [← List.map_cons]
       exact List.mem_map_of_mem Sample.DBHigh hs)
  }

/-- Witness for C1 at a concrete two-sample batch. -/
theorem c1_single_bucket_aggregate_witness :
    ∃ agg : Sample, lookupBucket (sweepRun [smplA, smplB]) 100 = some agg
      ∧ agg.SampleCount = sumCount [smplA, smplB]
      ∧ agg.DBAvg = wsum [smplA, smplB] / ((sumCount [smplA, smplB] : Nat) : ℚ)
      ∧ agg.DBLow ∈ [smplA, smplB].map Sample.DBLow
      ∧ (∀ s ∈ [smplA, smplB], agg.DBLow ≤ s.DBLow)
      ∧ agg.DBHigh ∈ [smplA, smplB].map Sample.DBHigh
      ∧ (∀ s ∈ [smplA, smplB], s.DBHigh ≤ agg.DBHigh) :=
  c1_single_bucket_aggregate [smplA, smplB] 100 (by decide) (by decide) (by decide) (by decide)

/-! ## C2 -/

/-- C2 counterexample: folding the same two samples into one bucket in
the two possible orders yields aggregates whose `End` fields differ
(`End` is plainly assigned from the incoming sample on merge), so the
result is *not* identical across permutations in every field. -/
theorem c2_counterexample :
    [smplA, smplB].Perm [smplB, smplA]
    ∧ (lookupBucket (sweepRun [smplA, smplB]) 100).map Sample.End
      ≠ (lookupBucket (sweepRun [smplB, smplA]) 100).map Sample.End
    ∧ (lookupBucket (sweepRun [smplA, smplB]) 100).map Sample.Start
      ≠ (lookupBucket (sweepRun [smplB, smplA]) 100).map Sample.Start :=
  ⟨List.Perm.swap smplB smplA [], by decide, by decide⟩

/-- C2 (amended): folding the same multiset of samples sharing a center
frequency into one bucket in any order yields the same `DBAvg`, `DBLow`,
`DBHigh` and `SampleCount` (exact arithmetic); `Start` and `End` are
order-dependent (`Start` is the first sample's, `End` the last's). -/
theorem c2_perm_invariant_except_times (l₁ l₂ : List Sample) (c : Nat)
    (hp : l₁.Perm l₂) (hne : l₁ ≠ []) (hc : ∀ s ∈ l₁, s.FreqCenter = c)
    (hcnt : ∀ s ∈ l₁, 1 ≤ s.SampleCount) (hbound : sumCount l₁ < U64) :
    ∃ a₁ a₂ : Sample,
      lookupBucket (sweepRun l₁) c = some a₁
      ∧ lookupBucket (sweepRun l₂) c = some a₂
      ∧ a₁.DBAvg = a₂.DBAvg ∧ a₁.DBLow = a₂.DBLow
      ∧ a₁.DBHigh = a₂.DBHigh ∧ a₁.SampleCount = a₂.SampleCount := by
  have hsum : sumCount l₂ = sumCount l₁ := ((hp.map Sample.SampleCount).sum_eq).symm
  have hwsum : wsum l₂ = wsum l₁ := by
    unfold wsum
    exact ((hp.map _).sum_eq).symm
  have hne₂ : l₂ ≠ [] := by
    intro h
    have := hp.length_eq
    rw [h] at this
    simp at this
    exact hne this
  have hc₂ : ∀ s ∈ l₂, s.FreqCenter = c := fun s hs => hc s (hp.mem_iff.mpr hs)
  have hcnt₂ : ∀ s ∈ l₂, 1 ≤ s.SampleCount := fun s hs => hcnt s (hp.mem_iff.mpr hs)
  have hbound₂ : sumCount l₂ < U64 := by rw [hsum]; exact hbound
  obtain ⟨a₁, h₁, hSC₁, hAvg₁, hLowMem₁, hLowLe₁, hHighMem₁, hHighGe₁⟩ :=
    c1_single_bucket_aggregate l₁ c hne hc hcnt hbound
  obtain ⟨a₂, h₂, hSC₂, hAvg₂, hLowMem₂, hLowLe₂, hHighMem₂, hHighGe₂⟩ :=
    c1_single_bucket_aggregate l₂ c hne₂ hc₂ hcnt₂ hbound₂
  refine ⟨a₁, a₂, h₁, h₂, ?_, ?_, ?_, ?_⟩
  · rw [hAvg₁, hAvg₂, hsum, hwsum]
  · obtain ⟨s₁, hs₁, he₁⟩ := List.mem_map.mp hLowMem₁
    obtain ⟨s₂, hs₂, he₂⟩ := List.mem_map.mp hLowMem₂
    have h12 : a₂.DBLow ≤ a₁.DBLow := by
      rw [← he₁]; exact hLowLe₂ s₁ (hp.mem_iff.mp hs₁)
    have h21 : a₁.DBLow ≤ a₂.DBLow := by
      rw [← he₂]; exact hLowLe₁ s₂ (hp.mem_iff.mpr hs₂)
    exact le_antisymm h21 h12
  · obtain ⟨s₁, hs₁, he₁⟩ := List.mem_map.mp hHighMem₁
    obtain ⟨s₂, hs₂, he₂⟩ := List.mem_map.mp hHighMem₂
    have h12 : a₁.DBHigh ≤ a₂.DBHigh := by
      rw [← he₁]; exact hHighGe₂ s₁ (hp.mem_iff.mp hs₁)
    have h21 : a₂.DBHigh ≤ a₁.DBHigh := by
      rw [← he₂]; exact hHighGe₁ s₂ (hp.mem_iff.mpr hs₂)
    exact le_antisymm h12 h21
  · rw [hSC₁, hSC₂, hsum]

/-- Witness for the amended C2 at a concrete pair of orders. -/
theorem c2_perm_invariant_except_times_witness :
    ∃ a₁ a₂ : Sample,
      lookupBucket (sweepRun [smplA, smplB]) 100 = some a₁
      ∧ lookupBucket (sweepRun [smplB, smplA]) 100 = some a₂
      ∧ a₁.DBAvg = a₂.DBAvg ∧ a₁.DBLow = a₂.DBLow
      ∧ a₁.DBHigh = a₂.DBHigh ∧ a₁.SampleCount = a₂.SampleCount :=
  c2_perm_invariant_except_times [smplA, smplB] [smplB, smplA] 100
    (List.Perm.swap smplB smplA []) (by decide) (by decide) (by decide) (by decide)

/-! ## C3 -/

/-- C3 counterexample: merging a sample whose `End` is *earlier* than
the stored bucket's `End` overwrites the bucket's `End` with the earlier
value — `End` is not `max(storedEnd, sample.End)` and it does decrease. -/
theorem c3_counterexample :
    (mergeSample smplB smplA).End = tsA
    ∧ (mergeSample smplB smplA).End.key < smplB.End.key := by
  exact ⟨rfl, by decide⟩

/-- C3 (amended): on a merge into an already-present bucket the bucket's
`End` is unconditionally assigned the incoming sample's `End`
(`stored.End = sample.End` in the Go source), so `End` tracks the most
recently merged sample and can move backwards; the `[Start, End]`
window does not necessarily widen. -/
theorem c3_merge_assigns_end (stored sample : Sample) :
    (mergeSample stored sample).End = sample.End := rfl

/-! ## Sweep-line parser (collection/rtlsdr/rtlsdr.go lines 66-133,
collection/hackrf/hackrf.go lines 118-181)

The two collectors share the parser verbatim up to the source name and
the integer flavor (`uint` vs `uint64` vs `int64`); the model follows
the rtlsdr file and 64-bit `uint`.  Parsing works on `List Char`;
`String` appears only at the line boundary. -/

/-- `strings.Split(s, sep)` on character lists: splits around each
leftmost non-overlapping occurrence of `sep` (callers only use non-empty
separators).  `acc` holds the current field, reversed; `fuel` is a
structural-recursion bound, never exhausted when it starts at the input
length (each step consumes at least one character). -/
def splitFuel (sep : List Char) : Nat → List Char → List Char → List (List Char)
  | _, [], acc => [acc.reverse]
  | 0, _ :: _, acc => [acc.reverse]
  | fuel + 1, c :: rest, acc =>
    if sep.isPrefixOf (c :: rest) then
      acc.reverse :: splitFuel sep fuel (rest.drop (sep.length - 1)) []
    else
      splitFuel sep fuel rest (c :: acc)

/-- `strings.Split(s, sep)`. -/
def goSplit (sep l : List Char) : List (List Char) := splitFuel sep l.length l []

/-- Value of a decimal digit string (most significant first). -/
def digitsVal (l : List Char) : Nat := l.foldl (fun acc c => acc * 10 + (c.toNat - 48)) 0

/-- A non-empty all-digit string, as `strconv` requires for base 10. -/
def parseDigitsOpt (l : List Char) : Option Nat :=
  if l.isEmpty then none
  else if l.all Char.isDigit then some (digitsVal l) else none

/-- `strconv.ParseUint(s, 10, 64)`: no sign, decimal digits only,
value below `2^64` (out-of-range input returns an error). -/
def goParseUint64 (l : List Char) : Option Nat :=
  (parseDigitsOpt l).bind (fun n => if n < U64 then some n else none)

/-- `parseUint` (rtlsdr.go lines 66-72 / hackrf.go lines 118-120):
`strconv.ParseUint(strings.Split(num, ".")[0], 10, 64)` — everything
from the first `'.'` on is silently dropped before the integer parse. -/
def parseUint (num : List Char) : Option Nat :=
  goParseUint64 ((goSplit ['.'] num).headD [])

/-- `strconv.ParseInt(s, 10, 64)` (also `strconv.Atoi`): optional sign,
decimal digits, value within the `int64` range. -/
def goParseInt64 (l : List Char) : Option Int :=
  match l with
  | '+' :: t => (parseDigitsOpt t).bind (fun n => if n ≤ 2 ^ 63 - 1 then some (n : Int) else none)
  | '-' :: t => (parseDigitsOpt t).bind (fun n => if n ≤ 2 ^ 63 then some (-(n : Int)) else none)
  | t => (parseDigitsOpt t).bind (fun n => if n ≤ 2 ^ 63 - 1 then some (n : Int) else none)

/-- `parseInt` of the int64-flavored rtlsdr collector
(`strconv.ParseInt(strings.Split(num, ".")[0], 10, 64)`); the hackrf
variant uses `strconv.Atoi` with identical behavior on 64-bit targets. -/
def parseInt (num : List Char) : Option Int :=
  goParseInt64 ((goSplit ['.'] num).headD [])

/-- `strconv.ParseFloat(s, 64)` for decimal literals, with the mantissa
kept exact in `ℚ`: optional sign, digits around an optional dot (at
least one digit), optional decimal exponent.  (The `Inf`/`NaN` words and
hex-float syntax Go also accepts never occur in sweep rows and are not
modelled.) -/
def goParseFloat (l : List Char) : Option ℚ :=
  let sgnSplit : ℚ × List Char :=
    match l with
    | '+' :: t => (1, t)
    | '-' :: t => (-1, t)
    | t => (1, t)
  let sgn := sgnSplit.1
  let body := sgnSplit.2
  let mant := body.takeWhile (fun c => c ≠ 'e' ∧ c ≠ 'E')
  let expPart := body.drop mant.length
  let intPart := mant.takeWhile (· ≠ '.')
  let fracRest := mant.drop intPart.length
  let fracPart := match fracRest with
    | '.' :: t => some t
    | [] => some []
    | _ => none
  match fracPart with
  | none => none
  | some frac =>
    if (intPart ++ frac).isEmpty then none
    else if (intPart ++ frac).all Char.isDigit then
      let mantVal : ℚ := (digitsVal intPart : ℚ) + (digitsVal frac : ℚ) / (10 : ℚ) ^ frac.length
      match expPart with
      | [] => some (sgn * mantVal)
      | _ :: et =>
        let expSplit : Int × List Char :=
          match et with
          | '+' :: t => (1, t)
          | '-' :: t => (-1, t)
          | t => (1, t)
        match parseDigitsOpt expSplit.2 with
        | none => none
        | some e => some (sgn * mantVal * (10 : ℚ) ^ ((expSplit.1 * e : Int)))
    else none

/-- Gregorian leap year, as Go's `time` package computes it. -/
def isLeap (y : Nat) : Bool := (y % 4 == 0 && y % 100 != 0) || y % 400 == 0

def daysInMonth (y m : Nat) : Nat :=
  if m = 2 then (if isLeap y then 29 else 28)
  else if m = 4 ∨ m = 6 ∨ m = 9 ∨ m = 11 then 30
  else 31

/-- `time.Parse(time.RFC3339, s)` restricted to the exact shape the
collectors build (`date + "T" + time + "Z"`, no offset, no fractional
second): `YYYY-MM-DDThh:mm:ssZ` with calendar-valid fields. -/
def parseRFC3339 (l : List Char) : Option Timestamp :=
  match l with
  | [y1, y2, y3, y4, '-', mo1, mo2, '-', d1, d2, 'T',
     h1, h2, ':', mi1, mi2, ':', s1, s2, 'Z'] =>
    if ([y1, y2, y3, y4, mo1, mo2, d1, d2, h1, h2, mi1, mi2, s1, s2].all Char.isDigit) then
      let y := digitsVal [y1, y2, y3, y4]
      let mo := digitsVal [mo1, mo2]
      let d := digitsVal [d1, d2]
      let h := digitsVal [h1, h2]
      let mi := digitsVal [mi1, mi2]
      let s := digitsVal [s1, s2]
      if 1 ≤ mo ∧ mo ≤ 12 ∧ 1 ≤ d ∧ d ≤ daysInMonth y mo ∧ h ≤ 23 ∧ mi ≤ 59 ∧ s ≤ 59 then
        some ⟨y, mo, d, h, mi, s⟩
      else none
    else none
  | _ => none

/-- `calculateBinRange` (rtlsdr.go lines 74-82): `uint` arithmetic,
hence the explicit wrap. -/
def calculateBinRange (freqLow freqHigh binWidth binNum : Nat) : Nat × Nat :=
  let low := (freqLow + binNum * binWidth) % U64
  let high := (low + binWidth) % U64
  (low, if high > freqHigh then freqHigh else high)

/-- Outcome of `scanRow` on one line, with the samples that were already
sent to the channel before the function returned: `ok` is a nil error,
`err` a non-nil returned error (the caller logs and continues), and
`panicked` an out-of-range slice index (the process dies). -/
inductive RowResult where
  | ok (emitted : List Sample)
  | err (emitted : List Sample)
  | panicked (emitted : List Sample)
deriving DecidableEq

/-- The per-bin loop of `scanRow` (rtlsdr.go lines 105-131): `i` is the
loop variable, `fuel` the number of bins still to process
(`numBins - i`), `emitted` the samples sent so far (reversed). -/
def scanBins (ident : String) (row : List (List Char))
    (freqLow freqHigh binWidth sampleCount : Nat) :
    Nat → Nat → List Sample → RowResult
  | _, 0, emitted => .ok emitted.reverse
  | i, fuel + 1, emitted =>
    match row.get? 0 with
    | none => .panicked emitted.reverse
    | some f0 =>
      match row.get? 1 with
      | none => .panicked emitted.reverse
      | some f1 =>
        match parseRFC3339 (f0 ++ 'T' :: f1 ++ ['Z']) with
        | none => .err emitted.reverse
        | some ts =>
          match row.get? (i + 6) with
          | none => .panicked emitted.reverse
          | some dbField =>
            match goParseFloat dbField with
            | none => .err emitted.reverse
            | some db =>
              let lh := calculateBinRange freqLow freqHigh binWidth i
              let smp : Sample :=
                { Identifier := ident
                  Source := "rtlsdr"
                  FreqCenter := ((lh.1 + lh.2) % U64) / 2
                  FreqLow := lh.1
                  FreqHigh := lh.2
                  DBLow := db
                  DBHigh := db
                  DBAvg := db
                  SampleCount := sampleCount
                  Start := ts
                  End := ts }
              scanBins ident row freqLow freqHigh binWidth sampleCount
                (i + 1) fuel (smp :: emitted)

/-- `scanRow` (rtlsdr.go lines 83-133) on an already-split row.  Field
accesses happen in source order (`row[5]`, `row[2]`, `row[3]`, `row[4]`,
then the loop); a missing index is a Go panic. -/
def scanRowFields (ident : String) (row : List (List Char)) : RowResult :=
  match row.get? 5 with
  | none => .panicked []
  | some f5 =>
    match parseUint f5 with
    | none => .err []
    | some sampleCount =>
      match row.get? 2 with
      | none => .panicked []
      | some f2 =>
        match parseUint f2 with
        | none => .err []
        | some freqLow =>
          match row.get? 3 with
          | none => .panicked []
          | some f3 =>
            match parseUint f3 with
            | none => .err []
            | some freqHigh =>
              match row.get? 4 with
              | none => .panicked []
              | some f4 =>
                match parseUint f4 with
                | none => .err []
                | some binWidth =>
                  scanBins ident row freqLow freqHigh binWidth sampleCount
                    0 (row.length - 6) []

/-- One raw text line: `row := strings.Split(scanner.Text(), ", ")`
followed by `scanRow`'s field processing. -/
def scanLine (ident : String) (line : String) : RowResult :=
  scanRowFields ident (goSplit [',', ' '] line.toList)

/-- The scan loop of `Sweep` (rtlsdr.go lines 56-61): parse errors are
logged and the loop continues with the next line; a panic kills the
process, ending the stream. -/
def sweepLines (ident : String) : List String → List Sample
  | [] => []
  | line :: rest =>
    match scanLine ident line with
    | .ok emitted => emitted ++ sweepLines ident rest
    | .err emitted => emitted ++ sweepLines ident rest
    | .panicked emitted => emitted

/-! ## Closed forms for the parser claims -/

/-- The sample `scanRow` builds for bin `i` (code formulas, including
the `uint` wraps). -/
def goBinSample (ident : String) (freqLow freqHigh binWidth cnt : Nat)
    (ts : Timestamp) (i : Nat) (db : ℚ) : Sample :=
  let lh := calculateBinRange freqLow freqHigh binWidth i
  { Identifier := ident
    Source := "rtlsdr"
    FreqCenter := ((lh.1 + lh.2) % U64) / 2
    FreqLow := lh.1
    FreqHigh := lh.2
    DBLow := db
    DBHigh := db
    DBAvg := db
    SampleCount := cnt
    Start := ts
    End := ts }

/-- The samples emitted for a run of parsed dB values starting at bin
index `i`. -/
def goBinSamples (ident : String) (freqLow freqHigh binWidth cnt : Nat)
    (ts : Timestamp) : Nat → List ℚ → List Sample
  | _, [] => []
  | i, v :: vs =>
    goBinSample ident freqLow freqHigh binWidth cnt ts i v ::
      goBinSamples ident freqLow freqHigh binWidth cnt ts (i + 1) vs

/-- The per-bin sample as the specification words it:
`low = segmentLow + i*binWidth`, `high = min(low+binWidth, segmentHigh)`,
`center = (low+high)/2`, `start = end =` the parsed timestamp. -/
def specBinSample (ident : String) (freqLow freqHigh binWidth cnt : Nat)
    (ts : Timestamp) (i : Nat) (db : ℚ) : Sample :=
  let low := freqLow + i * binWidth
  let high := min (low + binWidth) freqHigh
  { Identifier := ident
    Source := "rtlsdr"
    FreqCenter := (low + high) / 2
    FreqLow := low
    FreqHigh := high
    DBLow := db
    DBHigh := db
    DBAvg := db
    SampleCount := cnt
    Start := ts
    End := ts }

/-- Parse a whole run of dB fields (`none` as soon as one fails). -/
def parseFloats : List (List Char) → Option (List ℚ)
  | [] => some []
  | d :: ds =>
    match goParseFloat d, parseFloats ds with
    | some v, some vs => some (v :: vs)
    | _, _ => none

lemma if_gt_eq_min_nat (a b : Nat) : (if a > b then b else a) = min a b := by
  rcases le_or_lt a b with h | h
  · simp [Nat.not_lt.mpr h, Nat.min_eq_left h]
  · simp [h, Nat.min_eq_right (Nat.le_of_lt h)]

lemma goBinSample_eq_spec (ident : String) (fL fH bW cnt : Nat) (ts : Timestamp)
    (i : Nat) (db : ℚ) (h : fL + (i + 1) * bW + fH < U64) :
    goBinSample ident fL fH bW cnt ts i db = specBinSample ident fL fH bW cnt ts i db := by
  have e1 : (i + 1) * bW = i * bW + bW := by ring
  have m1 : (fL + i * bW) % U64 = fL + i * bW := Nat.mod_eq_of_lt (by omega)
  have m2 : (fL + i * bW + bW) % U64 = fL + i * bW + bW := Nat.mod_eq_of_lt (by omega)
  have hminle : min (fL + i * bW + bW) fH ≤ fH := Nat.min_le_right _ _
  have m3 : (fL + i * bW + min (fL + i * bW + bW) fH) % U64
      = fL + i * bW + min (fL + i * bW + bW) fH := Nat.mod_eq_of_lt (by omega)
  simp only [goBinSample, specBinSample, calculateBinRange, m1, m2, if_gt_eq_min_nat, m3]

lemma parseFloats_length : ∀ (dbs : List (List Char)) (vals : List ℚ),
    parseFloats dbs = some vals → vals.length = dbs.length := by
  intro dbs
  induction dbs with
  | nil => intro vals hv; cases hv; rfl
  | cons d ds ih =>
    intro vals hv
    simp only [parseFloats] at hv
    cases hd : goParseFloat d with
    | none => rw [hd] at hv; cases hv
    | some v =>
      cases hds : parseFloats ds with
      | none => rw [hd, hds] at hv; cases hv
      | some vs =>
        rw [hd, hds] at hv
        cases hv
        simp [ih vs hds]

lemma goBinSamples_length (ident : String) (fL fH bW cnt : Nat) (ts : Timestamp) :
    ∀ (vals : List ℚ) (i : Nat),
      (goBinSamples ident fL fH bW cnt ts i vals).length = vals.length := by
  intro vals
  induction vals with
  | nil => intro i; rfl
  | cons v vs ih => intro i; simp [goBinSamples, ih]

lemma goBinSamples_get (ident : String) (fL fH bW cnt : Nat) (ts : Timestamp) :
    ∀ (vals : List ℚ) (i0 i : Nat),
      (goBinSamples ident fL fH bW cnt ts i0 vals).get? i
        = (vals.get? i).map (goBinSample ident fL fH bW cnt ts (i0 + i)) := by
  intro vals
  induction vals with
  | nil => intro i0 i; simp [goBinSamples]
  | cons v vs ih =>
    intro i0 i
    cases i with
    | zero => simp [goBinSamples]
    | succ j =>
      simp only [goBinSamples, List.get?]
      rw [ih (i0 + 1) j, show i0 + 1 + j = i0 + (j + 1) from by omega]

/-- Index shift for the six header fields. -/
lemma row6_get (f0 f1 f2 f3 f4 f5 : List Char) (dbs : List (List Char)) :
    ∀ j, (f0 :: f1 :: f2 :: f3 :: f4 :: f5 :: dbs).get? (0 + 6 + j) = dbs.get? j := by
  intro j
  rw [show 0 + 6 + j = j + 6 from by omega]
  rfl

lemma scanBins_ok (ident : String) (row : List (List Char)) (fL fH bW cnt : Nat)
    (f0 f1 : List Char) (ts : Timestamp)
    (h0 : row.get? 0 = some f0) (h1 : row.get? 1 = some f1)
    (hts : parseRFC3339 (f0 ++ 'T' :: f1 ++ ['Z']) = some ts) :
    ∀ (dbs : List (List Char)) (vals : List ℚ) (i : Nat) (emitted : List Sample),
      parseFloats dbs = some vals →
      (∀ j, row.get? (i + 6 + j) = dbs.get? j) →
      scanBins ident row fL fH bW cnt i dbs.length emitted
        = .ok (emitted.reverse ++ goBinSamples ident fL fH bW cnt ts i vals) := by
  intro dbs
  induction dbs with
  | nil =>
    intro vals i emitted hv hj
    cases hv
    simp [scanBins, goBinSamples]
  | cons d ds ih =>
    intro vals i emitted hv hj
    simp only [parseFloats] at hv
    cases hd : goParseFloat d with
    | none => rw [hd] at hv; cases hv
    | some v =>
      cases hds : parseFloats ds with
      | none => rw [hd, hds] at hv; cases hv
      | some vs =>
        rw [hd, hds] at hv
        cases hv
        have hd6 : row.get? (i + 6) = some d := hj 0
        show scanBins ident row fL fH bW cnt i (ds.length + 1) emitted = _
        simp only [scanBins, h0, h1, hts, hd6, hd]
        have hj2 : ∀ j, row.get? (i + 1 + 6 + j) = ds.get? j := by
          intro j
          have h := hj (j + 1)
          rw [show i + 6 + (j + 1) = i + 1 + 6 + j from by omega] at h
          exact h
        rw [ih vs (i + 1) _ hds hj2]
        simp [goBinSamples, goBinSample, List.append_assoc]

lemma scanBins_err (ident : String) (row : List (List Char)) (fL fH bW cnt : Nat)
    (f0 f1 : List Char) (ts : Timestamp)
    (h0 : row.get? 0 = some f0) (h1 : row.get? 1 = some f1)
    (hts : parseRFC3339 (f0 ++ 'T' :: f1 ++ ['Z']) = some ts) :
    ∀ (good : List (List Char)) (vals : List ℚ) (bad : List Char) (rest : List (List Char))
      (i : Nat) (emitted : List Sample),
      parseFloats good = some vals → goParseFloat bad = none →
      (∀ j, row.get? (i + 6 + j) = (good ++ bad :: rest).get? j) →
      scanBins ident row fL fH bW cnt i (good ++ bad :: rest).length emitted
        = .err (emitted.reverse ++ goBinSamples ident fL fH bW cnt ts i vals) := by
  intro good
  induction good with
  | nil =>
    intro vals bad rest i emitted hv hbad hj
    cases hv
    have hd6 : row.get? (i + 6) = some bad := hj 0
    show scanBins ident row fL fH bW cnt i (rest.length + 1) emitted = _
    simp only [scanBins, List.get?_eq_getElem? ] at *
    simp [h0, h1, hts, hd6, hbad, goBinSamples]
    split <;> rfl
  | cons d ds ih =>
    intro vals bad rest i emitted hv hbad hj
    simp only [parseFloats] at hv
    cases hd : goParseFloat d with
    | none => rw [hd] at hv; cases hv
    | some v =>
      cases hds : parseFloats ds with
      | none => rw [hd, hds] at hv; cases hv
      | some vs =>
        rw [hd, hds] at hv
        cases hv
        have hd6 : row.get? (i + 6) = some d := hj 0
        show scanBins ident row fL fH bW cnt i ((ds ++ bad :: rest).length + 1) emitted = _
        simp only [scanBins, h0, h1, hts, hd6, hd]
        have hj2 : ∀ j, row.get? (i + 1 + 6 + j) = (ds ++ bad :: rest).get? j := by
          intro j
          have h := hj (j + 1)
          rw [show i + 6 + (j + 1) = i + 1 + 6 + j from by omega] at h
          exact h
        rw [ih vs bad rest (i + 1) _ hds hbad hj2]
        simp [goBinSamples, goBinSample, List.append_assoc]

/-! ## C4 -/

/-- C4 counterexample: the example row exactly as the claim quotes it —
with plain commas, no spaces — does not decompose at all: `scanRow`
splits on `", "`, obtains a single field, and the `row[5]` access
panics before any sample is emitted. -/
theorem c4_counterexample :
    scanLine "id0" "2021-12-01,10:00:01,400000000,400025000,12500,10,-20.0,-18.0"
      = .panicked [] := by decide

/-- C4 (amended): a sweep row of 6 header fields and `n` dB fields —
the fields being separated by `", "` as the sweep tools emit them —
parses into exactly `n` samples, where bin `i` has
`low = segmentLow + i*binWidth`, `high = min(low + binWidth, segmentHigh)`,
`center = (low + high)/2` and `start = end =` the parsed timestamp
(provided the arithmetic stays below `2^64`); in particular the example
row with `", "` separators yields exactly the two samples the claim
describes. -/
theorem c4_row_decomposition :
    (∀ (ident : String) (f0 f1 f2 f3 f4 f5 : List Char) (dbs : List (List Char))
        (cnt fL fH bW : Nat) (ts : Timestamp) (vals : List ℚ),
        parseUint f5 = some cnt → parseUint f2 = some fL → parseUint f3 = some fH →
        parseUint f4 = some bW → parseRFC3339 (f0 ++ 'T' :: f1 ++ ['Z']) = some ts →
        parseFloats dbs = some vals → fL + dbs.length * bW + fH < U64 →
        scanRowFields ident (f0 :: f1 :: f2 :: f3 :: f4 :: f5 :: dbs)
            = .ok (goBinSamples ident fL fH bW cnt ts 0 vals)
        ∧ (goBinSamples ident fL fH bW cnt ts 0 vals).length = dbs.length
        ∧ ∀ i v, vals.get? i = some v →
            (goBinSamples ident fL fH bW cnt ts 0 vals).get? i
              = some (specBinSample ident fL fH bW cnt ts i v))
    ∧ scanLine "id0" "2021-12-01, 10:00:01, 400000000, 400025000, 12500, 10, -20.0, -18.0"
        = .ok [⟨"id0", "rtlsdr", 400006250, 400000000, 400012500, -20, -20, -20, 10, tsA, tsA⟩,
               ⟨"id0", "rtlsdr", 400018750, 400012500, 400025000, -18, -18, -18, 10, tsA, tsA⟩] := by
  constructor
  · intro ident f0 f1 f2 f3 f4 f5 dbs cnt fL fH bW ts vals h5 h2 h3 h4 hts hv hof
    have hvlen : vals.length = dbs.length := parseFloats_length dbs vals hv
    refine ⟨?_, ?_, ?_⟩
    · have hlen : (f0 :: f1 :: f2 :: f3 :: f4 :: f5 :: dbs).length - 6 = dbs.length := by
        simp
      simp only [scanRowFields, List.get?, h5, h2, h3, h4, hlen]
      rw [scanBins_ok ident (f0 :: f1 :: f2 :: f3 :: f4 :: f5 :: dbs) fL fH bW cnt f0 f1 ts
        rfl rfl hts dbs vals 0 [] hv (row6_get f0 f1 f2 f3 f4 f5 dbs)]
      simp
    · rw [goBinSamples_length, hvlen]
    · intro i v hvi
      have hi : i < vals.length := by
        by_contra hcon
        rw [List.get?_eq_none.mpr (by omega)] at hvi
        cases hvi
      rw [goBinSamples_get, hvi]
      simp only [Option.map_some']
      rw [show (0 : Nat) + i = i from by omega]
      rw [goBinSample_eq_spec]
      have h1 : (i + 1) * bW ≤ dbs.length * bW := Nat.mul_le_mul_right bW (by omega)
      omega
  · decide

/-- Witness for the universally quantified part of the amended C4, at
the example row's fields. -/
theorem c4_row_decomposition_witness :
    scanRowFields "id0"
        ["2021-12-01".toList, "10:00:01".toList, "400000000".toList,
         "400025000".toList, "12500".toList, "10".toList,
         "-20.0".toList, "-18.0".toList]
      = .ok (goBinSamples "id0" 400000000 400025000 12500 10 tsA 0 [-20, -18]) :=
  (c4_row_decomposition.1 "id0" "2021-12-01".toList "10:00:01".toList "400000000".toList
    "400025000".toList "12500".toList "10".toList ["-20.0".toList, "-18.0".toList]
    10 400000000 400025000 12500 tsA [-20, -18]
    (by decide) (by decide) (by decide) (by decide) (by decide) (by decide) (by decide)).1

/-! ## C5 -/

/-- C5 counterexample: a row whose *second* dB field is unparsable is
not skipped as a whole — the first bin's sample was already sent to the
channel before the error was detected, so one sample from the malformed
row does reach the output (the claim demands none). -/
theorem c5_counterexample :
    scanLine "id0" "2021-12-01, 10:00:01, 400000000, 400025000, 12500, 10, -20.0, xyz"
      = .err [⟨"id0", "rtlsdr", 400006250, 400000000, 400012500, -20, -20, -20, 10, tsA, tsA⟩] := by
  decide

/-- C5 (amended): a failing header field (fields 2-5) or a failing
timestamp makes the row contribute no samples; a dB field that fails to
parse discards only that bin and the following ones — the samples of the
bins before it have already been emitted; in every such case `scanRow`
returns a non-nil error and the sweep loop logs it and continues with
the next line (a row with fewer than 6 fields instead panics). -/
theorem c5_partial_skip :
    (∀ (ident : String) (f0 f1 f2 f3 f4 f5 : List Char) (dbs : List (List Char)),
        (parseUint f5 = none ∨ parseUint f2 = none ∨ parseUint f3 = none ∨ parseUint f4 = none) →
        scanRowFields ident (f0 :: f1 :: f2 :: f3 :: f4 :: f5 :: dbs) = .err [])
    ∧ (∀ (ident : String) (f0 f1 f2 f3 f4 f5 : List Char) (d : List Char)
        (ds : List (List Char)) (cnt fL fH bW : Nat),
        parseUint f5 = some cnt → parseUint f2 = some fL → parseUint f3 = some fH →
        parseUint f4 = some bW → parseRFC3339 (f0 ++ 'T' :: f1 ++ ['Z']) = none →
        scanRowFields ident (f0 :: f1 :: f2 :: f3 :: f4 :: f5 :: d :: ds) = .err [])
    ∧ (∀ (ident : String) (f0 f1 f2 f3 f4 f5 : List Char)
        (good : List (List Char)) (vals : List ℚ) (bad : List Char) (rest : List (List Char))
        (cnt fL fH bW : Nat) (ts : Timestamp),
        parseUint f5 = some cnt → parseUint f2 = some fL → parseUint f3 = some fH →
        parseUint f4 = some bW → parseRFC3339 (f0 ++ 'T' :: f1 ++ ['Z']) = some ts →
        parseFloats good = some vals → goParseFloat bad = none →
        scanRowFields ident (f0 :: f1 :: f2 :: f3 :: f4 :: f5 :: (good ++ bad :: rest))
          = .err (goBinSamples ident fL fH bW cnt ts 0 vals))
    ∧ (∀ (ident line : String) (rest : List String) (e : List Sample),
        scanLine ident line = .err e →
        sweepLines ident (line :: rest) = e ++ sweepLines ident rest) := by
  refine ⟨?_, ?_, ?_, ?_⟩
  · intro ident f0 f1 f2 f3 f4 f5 dbs h
    cases h5 : parseUint f5 with
    | none => simp [scanRowFields, h5]
    | some cnt =>
      cases h2 : parseUint f2 with
      | none => simp [scanRowFields, h5, h2]
      | some fL =>
        cases h3 : parseUint f3 with
        | none => simp [scanRowFields, h5, h2, h3]
        | some fH =>
          cases h4 : parseUint f4 with
          | none => simp [scanRowFields, h5, h2, h3, h4]
          | some bW => rcases h with h | h | h | h <;> simp_all
  · intro ident f0 f1 f2 f3 f4 f5 d ds cnt fL fH bW h5 h2 h3 h4 hts
    have hlen : (f0 :: f1 :: f2 :: f3 :: f4 :: f5 :: d :: ds).length - 6 = ds.length + 1 := by
      simp
    simp only [scanRowFields, List.get?, h5, h2, h3, h4, hlen]
    simp only [scanBins, List.get?]
    rw [hts]
    rfl
  · intro ident f0 f1 f2 f3 f4 f5 good vals bad rest cnt fL fH bW ts h5 h2 h3 h4 hts hv hbad
    have hlen : (f0 :: f1 :: f2 :: f3 :: f4 :: f5 :: (good ++ bad :: rest)).length - 6
        = (good ++ bad :: rest).length := by simp
    simp only [scanRowFields, List.get?, h5, h2, h3, h4, hlen]
    rw [scanBins_err ident (f0 :: f1 :: f2 :: f3 :: f4 :: f5 :: (good ++ bad :: rest))
      fL fH bW cnt f0 f1 ts rfl rfl hts good vals bad rest 0 [] hv hbad
      (row6_get f0 f1 f2 f3 f4 f5 (good ++ bad :: rest))]
    simp
  · intro ident line rest e h
    simp [sweepLines, h]

/-- Witness for the amended C5: each conjunct instantiated at a concrete
malformed row. -/
theorem c5_partial_skip_witness :
    scanRowFields "id0"
        ["2021-12-01".toList, "10:00:01".toList, "400000000".toList,
         "400025000".toList, "12500".toList, "bogus".toList, "-20.0".toList]
      = .err []
    ∧ scanRowFields "id0"
        ["2021-13-01".toList, "10:00:01".toList, "400000000".toList,
         "400025000".toList, "12500".toList, "10".toList, "-20.0".toList]
      = .err []
    ∧ scanRowFields "id0"
        ["2021-12-01".toList, "10:00:01".toList, "400000000".toList,
         "400025000".toList, "12500".toList, "10".toList, "-20.0".toList, "xyz".toList]
      = .err (goBinSamples "id0" 400000000 400025000 12500 10 tsA 0 [-20])
    ∧ sweepLines "id0"
        ["2021-12-01, 10:00:01, 400000000, 400025000, 12500, 10, -20.0, xyz"]
      = [⟨"id0", "rtlsdr", 400006250, 400000000, 400012500, -20, -20, -20, 10, tsA, tsA⟩]
        ++ sweepLines "id0" [] :=
  ⟨c5_partial_skip.1 "id0" "2021-12-01".toList "10:00:01".toList "400000000".toList
      "400025000".toList "12500".toList "bogus".toList ["-20.0".toList] (by decide),
   c5_partial_skip.2.1 "id0" "2021-13-01".toList "10:00:01".toList "400000000".toList
      "400025000".toList "12500".toList "10".toList "-20.0".toList [] 10 400000000 400025000 12500
      (by decide) (by decide) (by decide) (by decide) (by decide),
   c5_partial_skip.2.2.1 "id0" "2021-12-01".toList "10:00:01".toList "400000000".toList
      "400025000".toList "12500".toList "10".toList ["-20.0".toList] [-20] "xyz".toList [] 10
      400000000 400025000 12500 tsA
      (by decide) (by decide) (by decide) (by decide) (by decide) (by decide) (by decide),
   c5_partial_skip.2.2.2 "id0"
      "2021-12-01, 10:00:01, 400000000, 400025000, 12500, 10, -20.0, xyz" []
      [⟨"id0", "rtlsdr", 400006250, 400000000, 400012500, -20, -20, -20, 10, tsA, tsA⟩]
      (by decide)⟩

/-! ## C10 -/

lemma splitFuel_dot_head : ∀ (fuel : Nat) (l acc : List Char), l.length ≤ fuel →
    (splitFuel ['.'] fuel l acc).headD [] = acc.reverse ++ l.takeWhile (fun c => c != '.') := by
  intro fuel
  induction fuel with
  | zero =>
    intro l acc hl
    cases l with
    | nil => simp [splitFuel]
    | cons c rest => simp at hl
  | succ fuel ih =>
    intro l acc hl
    cases l with
    | nil => simp [splitFuel]
    | cons c rest =>
      by_cases hc : c = '.'
      · subst hc
        rw [show splitFuel ['.'] (fuel + 1) ('.' :: rest) acc
            = acc.reverse :: splitFuel ['.'] fuel (rest.drop 0) [] from by
          simp [splitFuel, List.isPrefixOf]]
        simp [List.takeWhile_cons]
      · rw [show splitFuel ['.'] (fuel + 1) (c :: rest) acc
            = splitFuel ['.'] fuel rest (c :: acc) from by
          simp [splitFuel, List.isPrefixOf, Ne.symm hc]]
        rw [ih rest (c :: acc) (by simp at hl; omega)]
        simp [List.takeWhile_cons, hc]

lemma takeWhile_no_dot (b : List Char) : ∀ a : List Char, '.' ∉ a →
    (a ++ '.' :: b).takeWhile (fun c => c != '.') = a := by
  intro a
  induction a with
  | nil => intro _; simp [List.takeWhile_cons]
  | cons x xs ih =>
    intro hx
    have hx1 : x ≠ '.' := fun h => hx (by simp [h])
    have hx2 : '.' ∉ xs := fun h => hx (by simp [h])
    simp only [List.cons_append, List.takeWhile_cons]
    simp [hx1, ih hx2]

/-- C10: the numeric-field helpers `parseUint` and `parseInt` split the
field text on `'.'` and parse only the prefix before the first dot, so
any field with a fractional part is accepted with the fraction silently
discarded, and it fails only when that prefix is not itself a valid
integer; in particular `"12500.75"` parses to `12500`. -/
theorem c10_fraction_discarded :
    (∀ l : List Char,
        parseUint l = goParseUint64 (l.takeWhile (fun c => c != '.'))
        ∧ parseInt l = goParseInt64 (l.takeWhile (fun c => c != '.')))
    ∧ (∀ a b : List Char, '.' ∉ a →
        parseUint (a ++ '.' :: b) = goParseUint64 a
        ∧ parseInt (a ++ '.' :: b) = goParseInt64 a)
    ∧ parseUint "12500.75".toList = some 12500 := by
  have key : ∀ l : List Char, (goSplit ['.'] l).headD [] = l.takeWhile (fun c => c != '.') := by
    intro l
    have := splitFuel_dot_head l.length l [] (le_refl _)
    simpa [goSplit] using this
  refine ⟨?_, ?_, by decide⟩
  · intro l
    constructor
    · show goParseUint64 ((goSplit ['.'] l).headD []) = _
      rw [key]
    · show goParseInt64 ((goSplit ['.'] l).headD []) = _
      rw [key]
  · intro a b ha
    constructor
    · show goParseUint64 ((goSplit ['.'] (a ++ '.' :: b)).headD []) = _
      rw [key, takeWhile_no_dot b a ha]
    · show goParseInt64 ((goSplit ['.'] (a ++ '.' :: b)).headD []) = _
      rw [key, takeWhile_no_dot b a ha]

/-- Witness for C10 at the claim's example field. -/
theorem c10_fraction_discarded_witness :
    parseUint ("12500".toList ++ '.' :: "75".toList) = goParseUint64 "12500".toList
    ∧ parseInt ("12500".toList ++ '.' :: "75".toList) = goParseInt64 "12500".toList :=
  c10_fraction_discarded.2.1 "12500".toList "75".toList (by decide)

/-! ## Waterfall extractor (extraction.Render, the Render/GetColor of the
extraction package; same logic as the render tool's main)

The sqlite store is modelled as an in-memory list of rows; the three SQL
query templates are modelled as list computations with the exact WHERE
clauses, and `NTILE` with SQLite's semantics. -/

/-- One row of the `spectre` table (columns per the INSERT/SELECT lists:
Identifier, Source, FreqCenter, FreqLow, FreqHigh, dB triple,
SampleCount, Start/End in epoch milliseconds). -/
structure StoreRow where
  Identifier : String
  Source : String
  FreqCenter : Int
  FreqLow : Int
  FreqHigh : Int
  DBHigh : ℚ
  DBLow : ℚ
  DBAvg : ℚ
  SampleCount : Int
  Start : Int
  End : Int
deriving DecidableEq

/-- `extraction.FilterOptions`; the `time.Time` bounds appear in the
queries only through `UnixMilli()`, so they are epoch milliseconds. -/
structure FilterOptions where
  SDR : String
  Identifier : String
  StartFreq : Int
  EndFreq : Int
  StartTime : Int
  EndTime : Int
deriving DecidableEq

/-- `extraction.ImageOptions`. -/
structure ImageOptions where
  Height : Int
  Width : Int
  AddGrid : Bool
deriving DecidableEq

/-- The WHERE clause shared by the three queries:
`Source = ? AND Identifier LIKE ? AND FreqLow >= ? AND FreqHigh <= ?
AND Start >= ? AND End <= ?`.  `LIKE` is modelled as equality (callers
pass plain identifiers, not patterns). -/
def rowMatches (f : FilterOptions) (r : StoreRow) : Bool :=
  f.SDR == r.Source && f.Identifier == r.Identifier
    && decide (f.StartFreq ≤ r.FreqLow) && decide (r.FreqHigh ≤ f.EndFreq)
    && decide (f.StartTime ≤ r.Start) && decide (r.End ≤ f.EndTime)

/-- `GetMaxImageWidth`: `COUNT(DISTINCT(FreqCenter))` over the filtered
rows. -/
def getMaxImageWidth (rows : List StoreRow) (f : FilterOptions) : Nat :=
  (((rows.filter (rowMatches f)).map StoreRow.FreqCenter).dedup).length

/-- The subquery of `getTimeResolutionTmpl`: `MIN(FreqCenter)` over the
filtered rows (`NULL`, i.e. `none`, on an empty set). -/
def minFreqCenter (rows : List StoreRow) (f : FilterOptions) : Option Int :=
  ((rows.filter (rowMatches f)).map StoreRow.FreqCenter).min?

/-- `GetMaxImageHeight`: `COUNT(DISTINCT(Start))` over the rows whose
`FreqCenter` equals the minimum in-range center, restricted by source,
identifier and the time window (the outer query has no frequency
bounds); a `NULL` subquery result matches no row, so the count is 0. -/
def getMaxImageHeight (rows : List StoreRow) (f : FilterOptions) : Nat :=
  match minFreqCenter rows f with
  | none => 0
  | some m =>
    (((rows.filter (fun r =>
        r.FreqCenter == m && f.SDR == r.Source && f.Identifier == r.Identifier
          && decide (f.StartTime ≤ r.Start) && decide (r.End ≤ f.EndTime))).map
        StoreRow.Start).dedup).length

/-- `NTILE(b)` bucket (1-based) of the 0-based rank `k` among `n` ranked
rows: the first `n % b` buckets take `n/b + 1` rows each, the remaining
ones `n/b` (SQLite window-function semantics; callers pass `b ≥ 1`). -/
def ntileIndex (b n k : Nat) : Nat :=
  let q := n / b
  let r := n % b
  if k < r * (q + 1) then k / (q + 1) + 1
  else r + (k - r * (q + 1)) / q + 1

/-- Stable 0-based rank of the enumerated row `(i, r)` under `key`:
rows with a smaller key, or an equal key and a smaller original
position, come first (`ORDER BY` with SQLite's stable tie behavior). -/
def rankOf (key : StoreRow → Int) (en : List (Nat × StoreRow)) (i : Nat) (r : StoreRow) : Nat :=
  en.countP (fun p => key p.2 < key r || (key p.2 == key r && p.1 < i))

/-- One output row of `getImgDataTmpl`: the per-cell aggregates plus the
bucket pair. -/
structure ImgCell where
  freqLow : Int
  freqCenter : ℚ
  freqHigh : Int
  dbHigh : ℚ
  start : Int
  End : Int
  timeBucket : Nat
  freqBucket : Nat
deriving DecidableEq

/-- `MIN/AVG/MAX` aggregates of one non-empty bucket group
(`m` the first member, `ms` the rest). -/
def cellOf (tb fb : Nat) (m : StoreRow) (ms : List StoreRow) : ImgCell :=
  { freqLow := ms.foldl (fun a r => min a r.FreqLow) m.FreqLow
    freqCenter := ((m :: ms).map (fun r => (r.FreqCenter : ℚ))).sum / ((ms.length + 1 : Nat) : ℚ)
    freqHigh := ms.foldl (fun a r => max a r.FreqHigh) m.FreqHigh
    dbHigh := ms.foldl (fun a r => max a r.DBHigh) m.DBHigh
    start := ms.foldl (fun a r => min a r.Start) m.Start
    End := ms.foldl (fun a r => max a r.End) m.End
    timeBucket := tb
    freqBucket := fb }

/-- `getImgDataTmpl`: rank the filtered rows by `Start` and by
`FreqCenter`, assign `NTILE(height)`/`NTILE(width)` buckets, group by
the bucket pair and aggregate each group (groups emitted in bucket
order; the fold consuming them is order-insensitive).  With matching
rows but a non-positive `NTILE` argument the statement errors and the
unchecked `rows.Next()` loop sees no rows, hence `[]`. -/
def getImgData (rows : List StoreRow) (f : FilterOptions) (h w : Int) : List ImgCell :=
  let fr := rows.filter (rowMatches f)
  match fr with
  | [] => []
  | _ :: _ =>
    if h ≤ 0 ∨ w ≤ 0 then []
    else
      let n := fr.length
      let en := fr.enum
      (List.range h.toNat).flatMap (fun tbi =>
        (List.range w.toNat).filterMap (fun fbi =>
          match en.filter (fun p =>
              ntileIndex h.toNat n (rankOf StoreRow.Start en p.1 p.2) == tbi + 1
                && ntileIndex w.toNat n (rankOf StoreRow.FreqCenter en p.1 p.2) == fbi + 1) with
          | [] => none
          | p :: ps => some (cellOf (tbi + 1) (fbi + 1) p.2 (ps.map Prod.snd))))

/-- Symbolic IEEE float value: `fin` carries the exact rational of a
finite value.  Only finite operands occur in the modelled code paths;
operations on non-finite operands are collapsed to `nan`. -/
inductive F32 where
  | fin (q : ℚ)
  | nan
  | inf
  | ninf
deriving DecidableEq

def F32.sub : F32 → F32 → F32
  | .fin a, .fin b => .fin (a - b)
  | _, _ => .nan

def F32.mul : F32 → F32 → F32
  | .fin a, .fin b => .fin (a * b)
  | _, _ => .nan

/-- IEEE division: a zero divisor yields `NaN` from a zero dividend and
a signed infinity otherwise. -/
def F32.div : F32 → F32 → F32
  | .fin a, .fin b =>
    if b = 0 then (if a = 0 then .nan else if a > 0 then .inf else .ninf)
    else .fin (a / b)
  | _, _ => .nan

/-- Truncation toward zero (Go's float-to-integer conversion). -/
def ratTrunc (q : ℚ) : Int := q.num / (q.den : Int)

/-- Go float→`uint16` conversion: defined (truncating) for in-range
values; NaN and out-of-range results are implementation-defined in Go
and modelled as 0 (no theorem below relies on that choice). -/
def f32ToUInt16 : F32 → Nat
  | .fin q => if 0 ≤ ratTrunc q ∧ ratTrunc q < 65536 then (ratTrunc q).toNat else 0
  | _ => 0

/-- Go float→`uint8` conversion, same conventions. -/
def f64ToUInt8 (q : ℚ) : Nat :=
  if 0 ≤ ratTrunc q ∧ ratTrunc q < 256 then (ratTrunc q).toNat else 0

/-! ## ColorMapper (`GetColor`, extraction.go lines 108-131) -/

/-- An RGBA color (`color.RGBA`, channels are `uint8`). -/
structure RGBAColor where
  r : Nat
  g : Nat
  b : Nat
  a : Nat
deriving DecidableEq

/-- The heatmap gradient `colors` map; indices outside 0-6 give the Go
map zero value (never accessed by the loop). -/
def colors : Nat → RGBAColor
  | 0 => ⟨0, 0, 0, 255⟩
  | 1 => ⟨0, 0, 255, 255⟩
  | 2 => ⟨0, 255, 255, 255⟩
  | 3 => ⟨0, 255, 0, 255⟩
  | 4 => ⟨255, 255, 0, 255⟩
  | 5 => ⟨255, 0, 0, 255⟩
  | 6 => ⟨255, 255, 255, 255⟩
  | _ => ⟨0, 0, 0, 0⟩

/-- One channel of the interpolated color:
`uint8(float64(prevC.ch - currC.ch)*fract + float64(currC.ch))` — the
`uint8` subtraction wraps mod 256 before the float conversion. -/
def interpChan (prevc currc : Nat) (fract : ℚ) : Nat :=
  f64ToUInt8 ((((prevc + 256 - currc) % 256 : Nat) : ℚ) * fract + (currc : ℚ))

/-- The `lvl < currV` branch body of `GetColor` at loop index `i`:
`prevC := colors[max(0, i-1)]`;
`diff := uint16(max(0,i-1)) * 65535 / uint16(7) - currV` entirely in
`uint16` arithmetic (wrapping);
`fract := float64(lvl) - float64(currV)/float64(diff)` when `diff ≠ 0`. -/
def getColorBranch (lvl i : Nat) : RGBAColor :=
  let currC := colors i
  let currV := i * 65535 / 7 % 65536
  let prevC := colors (i - 1)
  let diff := ((i - 1) % 65536 * 65535 % 65536 / 7 + 65536 - currV) % 65536
  let fract : ℚ := if diff ≠ 0 then (lvl : ℚ) - (currV : ℚ) / (diff : ℚ) else 0
  ⟨interpChan prevC.r currC.r fract, interpChan prevC.g currC.g fract,
   interpChan prevC.b currC.b fract, interpChan prevC.a currC.a fract⟩

/-- The `for i := 0; i < len(colors); i++` loop: `k` is the remaining
iteration count (`7 - i`); falling out of the loop returns
`colors[len(colors)-1]`. -/
def getColorAux (lvl : Nat) : Nat → Nat → RGBAColor
  | _, 0 => colors 6
  | i, k + 1 =>
    if lvl < i * 65535 / 7 % 65536 then getColorBranch lvl i
    else getColorAux lvl (i + 1) k

/-- `GetColor` on a `uint16` level. -/
def GetColor (lvl : Nat) : RGBAColor := getColorAux lvl 0 7

/-! ## `Render` -/

/-- The accumulators of `Render`'s row-scan loop, with their initial
values: `lowFreq = math.MaxInt64`, `highFreq = 0`,
`globalMinDB = 1000`, `globalMaxDB = -1000`, `sTime = time.Now()`
(passed in as `now`), `eTime =` the zero `time.Time`, and the nested
`img` map as an association list keyed by `(rowIdx, colIdx) =
(TimeBucket, FreqBucket)`. -/
structure RenderState where
  lowFreq : Int
  highFreq : Int
  globalMinDB : ℚ
  globalMaxDB : ℚ
  sTime : Int
  eTime : Int
  img : List ((Nat × Nat) × ℚ)
deriving DecidableEq

/-- Go map assignment `img[rowIdx][colIdx] = db`. -/
def imgUpsert : List ((Nat × Nat) × ℚ) → (Nat × Nat) → ℚ → List ((Nat × Nat) × ℚ)
  | [], k, v => [(k, v)]
  | (k0, v0) :: t, k, v => if k0 = k then (k, v) :: t else (k0, v0) :: imgUpsert t k v

/-- One iteration of the `imgData.Next()` loop. -/
def renderStep (st : RenderState) (c : ImgCell) : RenderState :=
  { lowFreq := if c.freqLow < st.lowFreq then c.freqLow else st.lowFreq
    highFreq := if c.freqHigh > st.highFreq then c.freqHigh else st.highFreq
    globalMinDB := if c.dbHigh < st.globalMinDB then c.dbHigh else st.globalMinDB
    globalMaxDB := if c.dbHigh > st.globalMaxDB then c.dbHigh else st.globalMaxDB
    sTime := if c.start < st.sTime then c.start else st.sTime
    eTime := if c.End > st.eTime then c.End else st.eTime
    img := imgUpsert st.img (c.timeBucket, c.freqBucket) c.dbHigh }

/-- `UnixMilli` of the zero `time.Time` (January 1, year 1 UTC). -/
def goZeroTimeMs : Int := -62135596800000

/-- The `switch` clamping a requested dimension against the data's
ceiling, and whether the capping warning was logged:
`0` becomes the ceiling; a positive request above the ceiling is capped
(with a warning); anything else is passed through. -/
def clampDim (req maxD : Int) : Int × Bool :=
  if req = 0 then (maxD, false)
  else if 0 < req ∧ maxD < req then (maxD, true)
  else (req, false)

/-- Everything `Render` produces: the level each cell is normalized to
before the `uint16` conversion, the pixels actually set on the canvas
(`SetRGBA` silently drops out-of-bounds coordinates; keys are
`(columnIdx, rowIdx)`), the source metadata, the final image
dimensions, the cap warnings, and the per-pixel resolution metadata. -/
structure RenderResultM where
  levels : List ((Nat × Nat) × F32)
  pixels : List ((Nat × Nat) × RGBAColor)
  lowFreq : Int
  highFreq : Int
  startTime : Int
  endTime : Int
  imageHeight : Int
  imageWidth : Int
  warnedHeight : Bool
  warnedWidth : Bool
  freqPerPixel : F32
  secPerPixel : F32
deriving DecidableEq

/-- The clamped image height: the `switch` on `req.Image.Height`
against `GetMaxImageHeight`. -/
def renderHeight (rows : List StoreRow) (f : FilterOptions) (im : ImageOptions) : Int × Bool :=
  clampDim im.Height (getMaxImageHeight rows f : Int)

/-- The clamped image width: the `switch` on `req.Image.Width` against
`GetMaxImageWidth`. -/
def renderWidth (rows : List StoreRow) (f : FilterOptions) (im : ImageOptions) : Int × Bool :=
  clampDim im.Width (getMaxImageWidth rows f : Int)

/-- The rows the bucketing query returns for the (clamped) request. -/
def renderCells (rows : List StoreRow) (f : FilterOptions) (im : ImageOptions) : List ImgCell :=
  getImgData rows f (renderHeight rows f im).1 (renderWidth rows f im).1

/-- The state after the `imgData.Next()` loop. -/
def renderState (rows : List StoreRow) (f : FilterOptions) (im : ImageOptions) (now : Int) :
    RenderState :=
  (renderCells rows f im).foldl renderStep ⟨2 ^ 63 - 1, 0, 1000, -1000, now, goZeroTimeMs, []⟩

/-- The per-cell levels of the drawing loop, keyed by
`(columnIdx, rowIdx)`:
`lvl := uint16((db - globalMinDB) * math.MaxUint16 / dbRange)`, kept
before the `uint16` conversion so a zero `dbRange` shows up as the IEEE
special value the division produces. -/
def renderLevels (rows : List StoreRow) (f : FilterOptions) (im : ImageOptions) (now : Int) :
    List ((Nat × Nat) × F32) :=
  let st := renderState rows f im now
  st.img.map (fun e =>
    ((e.1.2, e.1.1),
      F32.div (F32.mul (F32.sub (.fin e.2) (.fin st.globalMinDB)) (.fin 65535))
        (.fin (st.globalMaxDB - st.globalMinDB))))

/-- The body of `Render` after the two resolution queries: clamp the
dimensions, run the bucketing query, fold the returned cells, and draw
each stored cell through `GetColor`. -/
def mainRender (rows : List StoreRow) (f : FilterOptions) (im : ImageOptions) (now : Int) :
    RenderResultM :=
  let hw := renderHeight rows f im
  let ww := renderWidth rows f im
  let st := renderState rows f im now
  let levels := renderLevels rows f im now
  { levels := levels
    pixels := levels.filterMap (fun e =>
      if (e.1.1 : Int) < ww.1 ∧ (e.1.2 : Int) < hw.1 then
        some (e.1, GetColor (f32ToUInt16 e.2))
      else none)
    lowFreq := st.lowFreq
    highFreq := st.highFreq
    startTime := st.sTime
    endTime := st.eTime
    imageHeight := hw.1
    imageWidth := ww.1
    warnedHeight := hw.2
    warnedWidth := ww.2
    freqPerPixel := F32.div (.fin ((st.highFreq - st.lowFreq : Int) : ℚ)) (.fin ((ww.1 : Int) : ℚ))
    secPerPixel := F32.div (.fin (((st.eTime - st.sTime : Int) : ℚ) / 1000)) (.fin ((hw.1 : Int) : ℚ)) }

/-- `extraction.Render`.  In the source, an error is returned only when
one of the database calls fails (prepare/query); over the in-memory
store those cannot fail, so every request succeeds — in particular
there is no empty-result check anywhere in the function. -/
def Render (rows : List StoreRow) (f : FilterOptions) (im : ImageOptions) (now : Int) :
    Except String RenderResultM :=
  Except.ok (mainRender rows f im now)

/-! ## C6 -/

/-- A filter and image options used in concrete render checks. -/
def fltr0 : FilterOptions := ⟨"rtlsdr", "id0", 0, 1000000000000, 0, 4102444800000⟩

def imAuto : ImageOptions := ⟨0, 0, false⟩

/-- A stored row matching `fltr0`. -/
def row0 : StoreRow := ⟨"id0", "rtlsdr", 100, 90, 110, -50, -60, -55, 10, 1600000000000, 1600000001000⟩

/-- C6 counterexample: rendering against a store with zero matching
rows succeeds (no "no data" error — `Render` has no empty-result check)
and yields a blank result: no pixel is ever set and no level computed. -/
theorem c6_counterexample :
    (Render [] fltr0 imAuto 1700000000000).isOk = true
    ∧ (Render [] fltr0 imAuto 1700000000000).toOption.map RenderResultM.pixels = some []
    ∧ (Render [] fltr0 imAuto 1700000000000).toOption.map RenderResultM.levels = some [] := by
  refine ⟨rfl, by decide, by decide⟩

/-- C6 (amended): `Render` invoked with a filter matching zero stored
rows returns *no* error: it succeeds with a blank image (no waterfall
pixel set, no cell level computed) and degenerate metadata — there is
no "no data" branch in the code. -/
theorem c6_blank_on_empty (rows : List StoreRow) (f : FilterOptions) (im : ImageOptions)
    (now : Int) (h : rows.filter (rowMatches f) = []) :
    Render rows f im now = .ok (mainRender rows f im now)
    ∧ (mainRender rows f im now).levels = []
    ∧ (mainRender rows f im now).pixels = [] := by
  have hcells : renderCells rows f im = [] := by
    unfold renderCells getImgData
    rw [h]
  have hst : (renderState rows f im now).img = [] := by
    unfold renderState
    rw [hcells]
    rfl
  have hlv : renderLevels rows f im now = [] := by
    simp [renderLevels, hst]
  refine ⟨rfl, ?_, ?_⟩
  · show renderLevels rows f im now = []
    exact hlv
  · show (renderLevels rows f im now).filterMap _ = []
    rw [hlv]
    rfl

/-- Witness for the amended C6 on the concrete empty store. -/
theorem c6_blank_on_empty_witness :
    Render [] fltr0 imAuto 1700000000000 = .ok (mainRender [] fltr0 imAuto 1700000000000)
    ∧ (mainRender [] fltr0 imAuto 1700000000000).levels = []
    ∧ (mainRender [] fltr0 imAuto 1700000000000).pixels = [] :=
  c6_blank_on_empty [] fltr0 imAuto 1700000000000 (by decide)

/-! ## C7 -/

lemma mem_of_mem_enumFrom {α : Type} : ∀ (l : List α) (n : Nat) (p : Nat × α),
    p ∈ l.enumFrom n → p.2 ∈ l := by
  intro l
  induction l with
  | nil => intro n p hp; cases hp
  | cons x xs ih =>
    intro n p hp
    rcases List.mem_cons.mp hp with h | h
    · rw [h]; simp
    · exact List.mem_cons_of_mem _ (ih (n + 1) p h)

lemma mem_of_mem_enum {α : Type} (l : List α) (p : Nat × α) (hp : p ∈ l.enum) : p.2 ∈ l :=
  mem_of_mem_enumFrom l 0 p hp

lemma foldl_max_fixed (v : ℚ) : ∀ (ms : List StoreRow),
    (∀ r ∈ ms, r.DBHigh = v) → ms.foldl (fun a r => max a r.DBHigh) v = v := by
  intro ms
  induction ms with
  | nil => intro _; rfl
  | cons r tail ih =>
    intro h
    have hr : r.DBHigh = v := h r (by simp)
    simp only [List.foldl_cons, hr, max_self]
    exact ih (fun x hx => h x (by simp [hx]))

/-- Every cell the bucketing query returns carries, as its `dbHigh`, the
common dB value when all matching rows agree on it. -/
lemma getImgData_dbHigh (rows : List StoreRow) (f : FilterOptions) (h w : Int) (v : ℚ)
    (hv : ∀ r ∈ rows.filter (rowMatches f), r.DBHigh = v) :
    ∀ c ∈ getImgData rows f h w, c.dbHigh = v := by
  intro c hc
  unfold getImgData at hc
  cases hfr : rows.filter (rowMatches f) with
  | nil => rw [hfr] at hc; cases hc
  | cons a fr0 =>
    rw [hfr] at hc
    by_cases hcond : h ≤ 0 ∨ w ≤ 0
    · simp only [hcond, if_true] at hc; cases hc
    · simp only [hcond, if_false] at hc
      rw [List.mem_flatMap] at hc
      obtain ⟨tbi, _, hc⟩ := hc
      rw [List.mem_filterMap] at hc
      obtain ⟨fbi, _, hc⟩ := hc
      cases hmem : List.filter _ ((a :: fr0).enum) with
      | nil => rw [hmem] at hc; cases hc
      | cons p ps =>
        rw [hmem] at hc
        injection hc with hc
        subst hc
        show (cellOf _ _ p.2 (ps.map Prod.snd)).dbHigh = v
        have hsub : ∀ q ∈ p :: ps, q ∈ (a :: fr0).enum := by
          intro q hq
          rw [← hmem] at hq
          exact (List.mem_filter.mp hq).1
        have hp2 : p.2.DBHigh = v := by
          have : p.2 ∈ a :: fr0 := mem_of_mem_enum _ p (hsub p (by simp))
          exact hv p.2 (hfr ▸ this)
        have hps : ∀ r ∈ ps.map Prod.snd, r.DBHigh = v := by
          intro r hr
          obtain ⟨q, hq, hq2⟩ := List.mem_map.mp hr
          have : q.2 ∈ a :: fr0 := mem_of_mem_enum _ q (hsub q (by simp [hq]))
          rw [← hq2]
          exact hv q.2 (hfr ▸ this)
        show (ps.map Prod.snd).foldl (fun a r => max a r.DBHigh) p.2.DBHigh = v
        rw [hp2]
        exact foldl_max_fixed v _ hps

lemma renderStep_gmin (cells : List ImgCell) : ∀ st : RenderState,
    (cells.foldl renderStep st).globalMinDB
      = (cells.map ImgCell.dbHigh).foldl min st.globalMinDB := by
  induction cells with
  | nil => intro st; rfl
  | cons c cs ih =>
    intro st
    simp only [List.foldl_cons, List.map_cons, ih]
    have : (renderStep st c).globalMinDB = min st.globalMinDB c.dbHigh := by
      simp [renderStep, if_lt_eq_min]
    rw [this]

lemma renderStep_gmax (cells : List ImgCell) : ∀ st : RenderState,
    (cells.foldl renderStep st).globalMaxDB
      = (cells.map ImgCell.dbHigh).foldl max st.globalMaxDB := by
  induction cells with
  | nil => intro st; rfl
  | cons c cs ih =>
    intro st
    simp only [List.foldl_cons, List.map_cons, ih]
    have : (renderStep st c).globalMaxDB = max st.globalMaxDB c.dbHigh := by
      simp [renderStep, if_gt_eq_max]
    rw [this]

lemma imgUpsert_values (P : ℚ → Prop) :
    ∀ (m : List ((Nat × Nat) × ℚ)) (k : Nat × Nat) (v : ℚ),
      (∀ e ∈ m, P e.2) → P v → ∀ e ∈ imgUpsert m k v, P e.2 := by
  intro m
  induction m with
  | nil =>
    intro k v _ hv e he
    rcases List.mem_cons.mp he with h | h
    · rw [h]; exact hv
    · cases h
  | cons kv t ih =>
    intro k v hm hv e he
    obtain ⟨k0, v0⟩ := kv
    by_cases hk : k0 = k
    · simp only [imgUpsert, hk, if_true] at he
      rcases List.mem_cons.mp he with h | h
      · rw [h]; exact hv
      · exact hm e (by simp [h])
    · simp only [imgUpsert, hk, if_false] at he
      rcases List.mem_cons.mp he with h | h
      · rw [h]; exact hm (k0, v0) (by simp)
      · exact ih k v (fun x hx => hm x (by simp [hx])) hv e h

lemma renderStep_img_values (P : ℚ → Prop) (cells : List ImgCell)
    (hc : ∀ c ∈ cells, P c.dbHigh) : ∀ st : RenderState,
    (∀ e ∈ st.img, P e.2) → ∀ e ∈ (cells.foldl renderStep st).img, P e.2 := by
  induction cells with
  | nil => intro st hst e he; exact hst e he
  | cons c cs ih =>
    intro st hst e he
    have hcs : ∀ x ∈ cs, P x.dbHigh := fun x hx => hc x (by simp [hx])
    refine ih hcs (renderStep st c) ?_ e he
    intro x hx
    exact imgUpsert_values P st.img (c.timeBucket, c.freqBucket) c.dbHigh hst
      (hc c (by simp)) x hx

lemma renderStep_img_empty : ∀ (cells : List ImgCell) (st : RenderState),
    (cells.foldl renderStep st).img ≠ [] → cells ≠ [] ∨ st.img ≠ [] := by
  intro cells
  cases cells with
  | nil => intro st h; exact Or.inr h
  | cons c cs => intro st _; exact Or.inl (by simp)

lemma foldl_min_fixed (v : ℚ) : ∀ (l : List ℚ) (a : ℚ),
    (∀ x ∈ l, x = v) → l ≠ [] → l.foldl min a = min a v := by
  intro l
  induction l with
  | nil => intro a _ hne; exact absurd rfl hne
  | cons x xs ih =>
    intro a h _
    have hx : x = v := h x (by simp)
    cases hxs : xs with
    | nil => simp [hx]
    | cons y ys =>
      rw [← hxs]
      simp only [List.foldl_cons, hx]
      rw [ih (min a v) (fun z hz => h z (by simp [hz])) (by simp [hxs])]
      rw [min_assoc, min_self]

lemma foldl_max_fixedq (v : ℚ) : ∀ (l : List ℚ) (a : ℚ),
    (∀ x ∈ l, x = v) → l ≠ [] → l.foldl max a = max a v := by
  intro l
  induction l with
  | nil => intro a _ hne; exact absurd rfl hne
  | cons x xs ih =>
    intro a h _
    have hx : x = v := h x (by simp)
    cases hxs : xs with
    | nil => simp [hx]
    | cons y ys =>
      rw [← hxs]
      simp only [List.foldl_cons, hx]
      rw [ih (max a v) (fun z hz => h z (by simp [hz])) (by simp [hxs])]
      rw [max_assoc, max_self]

/-- C7 (amended): `Render` has no special case for a zero dB range —
when every matching row carries the same dB value `v` (within the
sentinel bounds `-1000 < v < 1000` the accumulators start from), the
range `globalMaxDB - globalMinDB` is `0` and every per-cell level
expression `(db - globalMinDB) * 65535 / dbRange` evaluates to the IEEE
`0/0`, i.e. `NaN`, which is then pushed through the
implementation-defined float→`uint16` conversion into `GetColor`. -/
theorem c7_zero_range_nan (rows : List StoreRow) (f : FilterOptions) (im : ImageOptions)
    (now : Int) (v : ℚ) (hv : ∀ r ∈ rows.filter (rowMatches f), r.DBHigh = v)
    (hlow : -1000 < v) (hhigh : v < 1000) :
    ((mainRender rows f im now).levels).all (fun e => e.2 == F32.nan) = true := by
  show (renderLevels rows f im now).all (fun e => e.2 == F32.nan) = true
  rw [List.all_eq_true]
  intro e he
  simp only [renderLevels, List.mem_map] at he
  obtain ⟨a, ha, hae⟩ := he
  have hcells : ∀ c ∈ renderCells rows f im, c.dbHigh = v :=
    getImgData_dbHigh rows f _ _ v hv
  have himg : ∀ x ∈ (renderState rows f im now).img, x.2 = v := by
    unfold renderState
    exact renderStep_img_values (fun q => q = v) (renderCells rows f im) hcells _
      (by intro x hx; cases hx)
  have hav : a.2 = v := himg a ha
  have hne : renderCells rows f im ≠ [] := by
    have h1 : (renderState rows f im now).img ≠ [] := by
      intro h0
      rw [h0] at ha
      cases ha
    unfold renderState at h1
    rcases renderStep_img_empty _ _ h1 with h | h
    · exact h
    · exact absurd rfl h
  have hmapne : (renderCells rows f im).map ImgCell.dbHigh ≠ [] := by
    intro h0
    exact hne (List.map_eq_nil_iff.mp h0)
  have hmapv : ∀ x ∈ (renderCells rows f im).map ImgCell.dbHigh, x = v := by
    intro x hx
    obtain ⟨c, hc, hcx⟩ := List.mem_map.mp hx
    rw [← hcx]
    exact hcells c hc
  have hgmin : (renderState rows f im now).globalMinDB = v := by
    unfold renderState
    rw [renderStep_gmin]
    show ((renderCells rows f im).map ImgCell.dbHigh).foldl min 1000 = v
    rw [foldl_min_fixed v _ 1000 hmapv hmapne]
    exact min_eq_right (le_of_lt hhigh)
  have hgmax : (renderState rows f im now).globalMaxDB = v := by
    unfold renderState
    rw [renderStep_gmax]
    show ((renderCells rows f im).map ImgCell.dbHigh).foldl max (-1000) = v
    rw [foldl_max_fixedq v _ (-1000) hmapv hmapne]
    exact max_eq_right (le_of_lt hlow)
  rw [← hae]
  simp [hav, hgmin, hgmax, F32.sub, F32.mul, F32.div]

/-- Witness for the amended C7 on the one-row store: the single cell's
level evaluates to `NaN`. -/
theorem c7_zero_range_nan_witness :
    ((mainRender [row0] fltr0 imAuto 1700000000000).levels).all
      (fun e => e.2 == F32.nan) = true :=
  c7_zero_range_nan [row0] fltr0 imAuto 1700000000000 (-50)
    (by decide) (by decide) (by decide)

/-- C7 counterexample: on a store whose matching rows all read -50 dB,
the single rendered cell's level is the `NaN` produced by
`0 * 65535 / 0` — no flat-color special case exists, the division by
the zero range happens. -/
theorem c7_counterexample :
    (Render [row0] fltr0 imAuto 1700000000000).toOption.map RenderResultM.levels
      = some [((1, 1), F32.nan)] := by decide

/-! ## C8 -/

lemma clampDim_spec (req maxD : Int) (hreq : 0 ≤ req) (hmax : 0 ≤ maxD) :
    (clampDim req maxD).1 ≤ maxD
    ∧ (req = 0 → clampDim req maxD = (maxD, false))
    ∧ (maxD < req → clampDim req maxD = (maxD, true))
    ∧ (0 < req → req ≤ maxD → clampDim req maxD = (req, false)) := by
  unfold clampDim
  split_ifs with h1 h2
  · exact ⟨le_refl _, fun _ => rfl, fun hlt => by exfalso; omega, fun hpos => by exfalso; omega⟩
  · exact ⟨le_refl _, fun h0 => by exfalso; omega, fun _ => rfl,
      fun hpos hle => by exfalso; omega⟩
  · refine ⟨by omega, fun h0 => by exfalso; omega, fun hlt => by exfalso; omega,
      fun _ _ => rfl⟩

/-- C8: for every render request with non-negative requested dimensions,
`Render` succeeds (the clamping path returns no error), the final
dimensions never exceed the data's resolution ceilings (the distinct
in-range center-frequency count for the width, the distinct
start-timestamp count of the lowest in-range frequency for the height),
a request of `0` becomes the ceiling itself without a warning, a
request above the ceiling is capped to the ceiling with the warning
logged, and a request within the ceiling is honored unchanged. -/
theorem c8_clamp_to_ceiling (rows : List StoreRow) (f : FilterOptions) (im : ImageOptions)
    (now : Int) (hh : 0 ≤ im.Height) (hw : 0 ≤ im.Width) :
    Render rows f im now = .ok (mainRender rows f im now)
    ∧ (mainRender rows f im now).imageHeight ≤ (getMaxImageHeight rows f : Int)
    ∧ (mainRender rows f im now).imageWidth ≤ (getMaxImageWidth rows f : Int)
    ∧ (im.Height = 0 →
        (mainRender rows f im now).imageHeight = (getMaxImageHeight rows f : Int)
        ∧ (mainRender rows f im now).warnedHeight = false)
    ∧ ((getMaxImageHeight rows f : Int) < im.Height →
        (mainRender rows f im now).imageHeight = (getMaxImageHeight rows f : Int)
        ∧ (mainRender rows f im now).warnedHeight = true)
    ∧ (0 < im.Height → im.Height ≤ (getMaxImageHeight rows f : Int) →
        (mainRender rows f im now).imageHeight = im.Height
        ∧ (mainRender rows f im now).warnedHeight = false)
    ∧ (im.Width = 0 →
        (mainRender rows f im now).imageWidth = (getMaxImageWidth rows f : Int)
        ∧ (mainRender rows f im now).warnedWidth = false)
    ∧ ((getMaxImageWidth rows f : Int) < im.Width →
        (mainRender rows f im now).imageWidth = (getMaxImageWidth rows f : Int)
        ∧ (mainRender rows f im now).warnedWidth = true)
    ∧ (0 < im.Width → im.Width ≤ (getMaxImageWidth rows f : Int) →
        (mainRender rows f im now).imageWidth = im.Width
        ∧ (mainRender rows f im now).warnedWidth = false) := by
  obtain ⟨hle, hzero, hcap, hkeep⟩ :=
    clampDim_spec im.Height (getMaxImageHeight rows f : Int) hh (Int.natCast_nonneg _)
  obtain ⟨wle, wzero, wcap, wkeep⟩ :=
    clampDim_spec im.Width (getMaxImageWidth rows f : Int) hw (Int.natCast_nonneg _)
  have hH : (mainRender rows f im now).imageHeight = (renderHeight rows f im).1 := rfl
  have hHw : (mainRender rows f im now).warnedHeight = (renderHeight rows f im).2 := rfl
  have hW : (mainRender rows f im now).imageWidth = (renderWidth rows f im).1 := rfl
  have hWw : (mainRender rows f im now).warnedWidth = (renderWidth rows f im).2 := rfl
  have hRH : renderHeight rows f im = clampDim im.Height (getMaxImageHeight rows f : Int) := rfl
  have hRW : renderWidth rows f im = clampDim im.Width (getMaxImageWidth rows f : Int) := rfl
  refine ⟨rfl, ?_, ?_, ?_, ?_, ?_, ?_, ?_, ?_⟩
  · rw [hH, hRH]; exact hle
  · rw [hW, hRW]; exact wle
  · intro h0; rw [hH, hHw, hRH, hzero h0]; exact ⟨rfl, rfl⟩
  · intro h0; rw [hH, hHw, hRH, hcap h0]; exact ⟨rfl, rfl⟩
  · intro h0 h1; rw [hH, hHw, hRH, hkeep h0 h1]; exact ⟨rfl, rfl⟩
  · intro h0; rw [hW, hWw, hRW, wzero h0]; exact ⟨rfl, rfl⟩
  · intro h0; rw [hW, hWw, hRW, wcap h0]; exact ⟨rfl, rfl⟩
  · intro h0 h1; rw [hW, hWw, hRW, wkeep h0 h1]; exact ⟨rfl, rfl⟩

/-- Witness for C8: a 5×7 request against a store whose ceilings are
1×1 is capped in both dimensions, with both warnings, and no error. -/
theorem c8_clamp_to_ceiling_witness :
    Render [row0] fltr0 ⟨5, 7, false⟩ 1700000000000
      = .ok (mainRender [row0] fltr0 ⟨5, 7, false⟩ 1700000000000)
    ∧ (mainRender [row0] fltr0 ⟨5, 7, false⟩ 1700000000000).imageHeight
        = (getMaxImageHeight [row0] fltr0 : Int)
    ∧ (mainRender [row0] fltr0 ⟨5, 7, false⟩ 1700000000000).warnedHeight = true
    ∧ (mainRender [row0] fltr0 ⟨5, 7, false⟩ 1700000000000).imageWidth
        = (getMaxImageWidth [row0] fltr0 : Int)
    ∧ (mainRender [row0] fltr0 ⟨5, 7, false⟩ 1700000000000).warnedWidth = true := by
  have h := c8_clamp_to_ceiling [row0] fltr0 ⟨5, 7, false⟩ 1700000000000
    (by decide) (by decide)
  exact ⟨h.1, (h.2.2.2.2.1 (by decide)).1, (h.2.2.2.2.1 (by decide)).2,
    (h.2.2.2.2.2.2.2.1 (by decide)).1, (h.2.2.2.2.2.2.2.1 (by decide)).2⟩

/-! ## C9 -/

/-- C9 counterexample: level 0 does not map to the first gradient stop —
the interpolation's `uint16`/`uint8` wraparound yields RGBA
`(0, 0, 254, 255)`, a near-blue, not black. -/
theorem c9_counterexample :
    GetColor 0 = ⟨0, 0, 254, 255⟩ ∧ GetColor 0 ≠ colors 0 := by decide

/-- C9 (amended): level 0 maps to RGBA `(0, 0, 254, 255)` (not the
first stop: the branch at `i = 1` computes its interpolation factor
from wrapped `uint16` arithmetic), the maximum level 65535 maps to the
last stop (white), and every level at or above the top stop's threshold
`uint16(6*65535/7) = 56172` saturates to white. -/
theorem c9_color_endpoints :
    GetColor 0 = ⟨0, 0, 254, 255⟩
    ∧ GetColor 65535 = colors 6
    ∧ (∀ lvl : Nat, 56172 ≤ lvl → GetColor lvl = colors 6) := by
  refine ⟨by decide, by decide, ?_⟩
  intro lvl h
  show getColorAux lvl 0 7 = colors 6
  have h0 : ¬ (lvl < 0) := by omega
  have h1 : ¬ (lvl < 9362) := by omega
  have h2 : ¬ (lvl < 18724) := by omega
  have h3 : ¬ (lvl < 28086) := by omega
  have h4 : ¬ (lvl < 37448) := by omega
  have h5 : ¬ (lvl < 46810) := by omega
  have h6 : ¬ (lvl < 56172) := by omega
  simp [getColorAux, h0, h1, h2, h3, h4, h5, h6]

/-- Witness for the saturation part of the amended C9. -/
theorem c9_color_endpoints_witness : GetColor 60000 = colors 6 :=
  c9_color_endpoints.2.2 60000 (by omega)
